import Mathlib

/-! # Account utilities of the Blockstack explorer: key-tree derivation helpers

A shallow embedding of `app/js/utils/account-utils.js`, of the upload policy of
`app/js/account/utils/index.js` and of `splitSeed` of `app/js/seed/index.js`.

* JavaScript strings are sequences of UTF-16 code units (`JsString`), so that
  `length`, `charCodeAt` and concatenation mean what they mean in the source.
* JavaScript numbers that the code touches are integers far below `2^53`, so
  they are modelled by `Int`; the 32-bit operators `<<` and `&` convert their
  operands with `ToInt32` and are modelled on the unsigned residue modulo `2^32`.
* A `throw` is an `Except.error`.
* The third-party libraries (`bip32`, `bitcoinjs-lib`, `crypto`) are not part of
  the repository; their operations are the fields of `Lib`, a parameter of every
  function that calls them.
-/

namespace AccountUtils

/-! ## JavaScript values -/

/-- A JavaScript string: its UTF-16 code units. -/
abbrev JsString := List (Fin 65536)

/-- The UTF-16 code units of one Unicode scalar value. -/
def utf16Units (c : Char) : List (Fin 65536) :=
  if c.toNat < 65536 then [Fin.ofNat c.toNat]
  else
    [Fin.ofNat (55296 + (c.toNat - 65536) / 1024), Fin.ofNat (56320 + (c.toNat - 65536) % 1024)]

/-- A string literal of the source as a JavaScript string. -/
def js (s : String) : JsString := s.toList.flatMap utf16Units

/-- The errors the code can raise: `new Error(message)` of the source, and the
`TypeError` that the libraries and the language raise. -/
inductive JsError where
  | error (message : String)
  | typeError (message : String)
deriving DecidableEq, Repr

/-- ECMAScript `ToUint32` on an integral number: the residue modulo `2^32`. -/
def toUint32 (x : Int) : Nat := (x % 4294967296).toNat

/-- ECMAScript `ToInt32` on an integral number: the residue modulo `2^32` read
as a signed 32-bit integer. -/
def toInt32 (x : Int) : Int :=
  if toUint32 x < 2147483648 then (toUint32 x : Int) else (toUint32 x : Int) - 4294967296

/-- The operator `a << k` of JavaScript: both operands to 32 bits, shift count
masked to five bits, result read as signed. -/
def jsShl (a : Int) (k : Nat) : Int := toInt32 ((toUint32 a <<< (k % 32) : Nat) : Int)

/-- The operator `a & b` of JavaScript: both operands to 32 bits, result read
as signed. -/
def jsAnd (a b : Int) : Int := toInt32 ((toUint32 a &&& toUint32 b : Nat) : Int)

/-! ## hashCode -/

/-- The body of the `for` loop of `hashCode`, run over the remaining code units
with the running value of `hash`. -/
def hashCodeLoop (hash : Int) : List (Fin 65536) → Int
  | [] => hash
  | character :: rest =>
    let hash1 := jsShl hash 5 - hash + (character.val : Int)
    hashCodeLoop (jsAnd hash1 hash1) rest

/-- Function `hashCode(string)` of the source. -/
def hashCode (string : JsString) : Int :=
  if string.length = 0 then 0
  else jsAnd (hashCodeLoop 0 string) 2147483647

/-- The fold of the specification: `h := (h * 31 + c) & 0x7fffffff`, seeded by
the caller. -/
def specFold (h : Nat) (s : JsString) : Nat :=
  s.foldl (fun acc c => (acc * 31 + c.val) % 2147483648) h

/-- The polynomial `∑ c_i * 31^(n-1-i)` of the code units of a string. -/
def polyValue : List (Fin 65536) → Nat
  | [] => 0
  | c :: rest => c.val * 31 ^ rest.length + polyValue rest

/-! ## The library interface -/

/-- A Node.js `Buffer`: a sequence of bytes. -/
abbrev Buffer := List (Fin 256)

/-- One lower-case hexadecimal digit as a code unit. -/
def hexDigit (n : Nat) : Fin 65536 :=
  if n < 10 then Fin.ofNat (48 + n) else Fin.ofNat (87 + n)

/-- The method `buffer.toString('hex')`: two lower-case hexadecimal digits per
byte. -/
def bufferToHex (b : Buffer) : JsString :=
  b.flatMap (fun x => [hexDigit (x.val / 16), hexDigit (x.val % 16)])

/-- The operations of `bip32`, `bitcoinjs-lib` and `crypto` that the source
calls, on a type `Node` of BIP32 key nodes.

* `sha256Hex s` is `crypto.createHash('sha256').update(s).digest('hex')`;
* `isNeutered`, `publicKey`, `privateKey` (`undefined` is `none`),
  `deriveHardened`, `derive`, `neutered` and `toBase58` are the members of a
  `bip32` node of the same names;
* `p2pkhAddress pubkey` is the `address` of `payments.p2pkh` for that public
  key. -/
structure Lib (Node : Type) where
  sha256Hex : JsString → JsString
  isNeutered : Node → Bool
  publicKey : Node → Buffer
  privateKey : Node → Option Buffer
  deriveHardened : Node → Int → Except JsError Node
  derive : Node → Int → Except JsError Node
  neutered : Node → Node
  toBase58 : Node → JsString
  p2pkhAddress : Buffer → JsString

/-- The index check of `bip32` on a hardened child: an integer in `[0, 2^31)`. -/
def UInt31 (i : Int) : Prop := 0 ≤ i ∧ i < 2147483648

instance (i : Int) : Decidable (UInt31 i) := by unfold UInt31; infer_instance

/-- What the code relies on from `bip32`: from a node that holds its private
key every hardened child with an index in `[0, 2^31)` can be derived and holds
its private key again (when the derived key is out of range `bip32` moves on to
the next index and still returns a private child); a neutered node has no
hardened child; a node holds a private key exactly when it is not neutered. -/
structure Lib.Lawful {Node : Type} (lib : Lib Node) : Prop where
  hardened_of_private : ∀ (n : Node) (i : Int), lib.isNeutered n = false → UInt31 i →
    ∃ c, lib.deriveHardened n i = Except.ok c ∧ lib.isNeutered c = false
  hardened_of_neutered : ∀ (n : Node) (i : Int), lib.isNeutered n = true →
    ∃ e, lib.deriveHardened n i = Except.error e
  private_iff : ∀ n : Node, (lib.privateKey n).isSome = !lib.isNeutered n

/-! ## Nodes of the key tree -/

variable {Node : Type}

/-- Function `getAddressFromBIP32Node(node)`. -/
def getAddressFromBIP32Node (lib : Lib Node) (node : Node) : JsString :=
  lib.p2pkhAddress (lib.publicKey node)

def PUBLIC_SHARED_APPS_NODE_INDEX : Int := 0
def APPS_NODE_INDEX : Int := 0
def SIGNING_NODE_INDEX : Int := 1
def ENCRYPTION_NODE_INDEX : Int := 2
def MAX_TRUST_LEVEL : Nat := 99

/-- The expression `x.toString('hex')` on a value that may be `undefined`:
reading a property of `undefined` raises a `TypeError`. -/
def hexOfOptional (b : Option Buffer) : Except JsError JsString :=
  match b with
  | some buf => pure (bufferToHex buf)
  | none => throw (JsError.typeError "Cannot read property toString of undefined")

/-- Function `getSharedAppsPrivateKey(appsNode)`: the private key of the
hardened child at `PUBLIC_SHARED_APPS_NODE_INDEX`. -/
def getSharedAppsPrivateKey (lib : Lib Node) (appsNode : Node) :
    Except JsError (Option Buffer) := do
  let intermediateNode ← lib.deriveHardened appsNode PUBLIC_SHARED_APPS_NODE_INDEX
  pure (lib.privateKey intermediateNode)

/-- Class `AppNode`. -/
structure AppNode (Node : Type) where
  hdNode : Node
  appDomain : JsString

/-- Method `AppNode.getAppPrivateKey()`. -/
def AppNode.getAppPrivateKey (lib : Lib Node) (self : AppNode Node) : Except JsError JsString :=
  hexOfOptional (lib.privateKey self.hdNode)

/-- Method `AppNode.getAddress()`. -/
def AppNode.getAddress (lib : Lib Node) (self : AppNode Node) : JsString :=
  getAddressFromBIP32Node lib self.hdNode

/-- Class `AppsNode`. -/
structure AppsNode (Node : Type) where
  hdNode : Node
  salt : JsString

/-- Method `AppsNode.getNode()`. -/
def AppsNode.getNode (self : AppsNode Node) : Node := self.hdNode

/-- The local `hash` of `AppsNode.getAppNode`: the hexadecimal SHA-256 digest of
the template string of the domain followed by the salt. -/
def AppsNode.appHash (lib : Lib Node) (self : AppsNode Node) (appDomain : JsString) : JsString :=
  lib.sha256Hex (appDomain ++ self.salt)

/-- The local `appIndex` of `AppsNode.getAppNode`. -/
def AppsNode.appIndex (lib : Lib Node) (self : AppsNode Node) (appDomain : JsString) : Int :=
  hashCode (self.appHash lib appDomain)

/-- Method `AppsNode.getAppNode(appDomain)`. -/
def AppsNode.getAppNode (lib : Lib Node) (self : AppsNode Node) (appDomain : JsString) :
    Except JsError (AppNode Node) := do
  let appIndex := self.appIndex lib appDomain
  let appNode ← lib.deriveHardened self.hdNode appIndex
  pure (AppNode.mk appNode appDomain)

/-- Method `AppsNode.toBase58()`. -/
def AppsNode.toBase58 (lib : Lib Node) (self : AppsNode Node) : JsString :=
  lib.toBase58 self.hdNode

/-- Method `AppsNode.getSalt()`. -/
def AppsNode.getSalt (self : AppsNode Node) : JsString := self.salt

/-- Class `IdentityAddressOwnerNode`: the three fields its constructor sets. -/
structure IdentityAddressOwnerNode (Node : Type) where
  hdNode : Node
  salt : JsString
  appsNode : AppsNode Node

/-- The constructor of `IdentityAddressOwnerNode`: it derives the apps node,
which can raise. -/
def IdentityAddressOwnerNode.new (lib : Lib Node) (ownerHdNode : Node) (salt : JsString) :
    Except JsError (IdentityAddressOwnerNode Node) := do
  let appsHdNode ← lib.deriveHardened ownerHdNode APPS_NODE_INDEX
  pure (IdentityAddressOwnerNode.mk ownerHdNode salt (AppsNode.mk appsHdNode salt))

namespace IdentityAddressOwnerNode

/-- Method `getNode()`. -/
def getNode (self : IdentityAddressOwnerNode Node) : Node := self.hdNode

/-- Method `getSalt()`. -/
def getSalt (self : IdentityAddressOwnerNode Node) : JsString := self.salt

/-- Method `getIdentityKey()`. -/
def getIdentityKey (lib : Lib Node) (self : IdentityAddressOwnerNode Node) :
    Except JsError JsString :=
  hexOfOptional (lib.privateKey self.hdNode)

/-- Method `getIdentityKeyID()`. -/
def getIdentityKeyID (lib : Lib Node) (self : IdentityAddressOwnerNode Node) : JsString :=
  bufferToHex (lib.publicKey self.hdNode)

/-- Method `getAppsNode()`. -/
def getAppsNode (self : IdentityAddressOwnerNode Node) : AppsNode Node := self.appsNode

/-- Method `getSharedAppsPrivateKey()`. -/
def getSharedAppsPrivateKey (lib : Lib Node) (self : IdentityAddressOwnerNode Node) :
    Except JsError JsString := do
  let key ← AccountUtils.getSharedAppsPrivateKey lib self.getAppsNode.hdNode
  hexOfOptional key

/-- Method `getAddress()`. -/
def getAddress (lib : Lib Node) (self : IdentityAddressOwnerNode Node) : JsString :=
  getAddressFromBIP32Node lib self.hdNode

/-- Method `getEncryptionNode()`. -/
def getEncryptionNode (lib : Lib Node) (self : IdentityAddressOwnerNode Node) :
    Except JsError Node :=
  lib.deriveHardened self.hdNode ENCRYPTION_NODE_INDEX

/-- Method `getSigningNode()`. -/
def getSigningNode (lib : Lib Node) (self : IdentityAddressOwnerNode Node) :
    Except JsError Node :=
  lib.deriveHardened self.hdNode SIGNING_NODE_INDEX

end IdentityAddressOwnerNode

/-! ## Validators -/

/-- The record `{ isValid, error }` that `isPasswordValid` returns. -/
structure PasswordValidity where
  isValid : Bool
  error : Option String
deriving DecidableEq, Repr

/-- Function `isPasswordValid(password)`: both variables are assigned in the one
branch `password.length >= 8`. -/
def isPasswordValid (password : JsString) : PasswordValidity :=
  if password.length ≥ 8 then
    PasswordValidity.mk true (some "Password must be at least 8 characters")
  else
    PasswordValidity.mk false none

/-! ## Keychains -/

def EXTERNAL_ADDRESS : JsString := js "EXTERNAL_ADDRESS"
def CHANGE_ADDRESS : JsString := js "CHANGE_ADDRESS"

/-- Function `getBitcoinPrivateKeychain(masterKeychain)`. -/
def getBitcoinPrivateKeychain (lib : Lib Node) (masterKeychain : Node) : Except JsError Node := do
  let BIP_44_PURPOSE : Int := 44
  let BITCOIN_COIN_TYPE : Int := 0
  let ACCOUNT_INDEX : Int := 0
  let purpose ← lib.deriveHardened masterKeychain BIP_44_PURPOSE
  let coin ← lib.deriveHardened purpose BITCOIN_COIN_TYPE
  lib.deriveHardened coin ACCOUNT_INDEX

/-- Function `getBitcoinPublicKeychain(masterKeychain)`. -/
def getBitcoinPublicKeychain (lib : Lib Node) (masterKeychain : Node) : Except JsError Node := do
  let keychain ← getBitcoinPrivateKeychain lib masterKeychain
  pure (lib.neutered keychain)

/-- Function `getBitcoinAddressNode(bitcoinKeychain, addressIndex = 0,
chainType = EXTERNAL_ADDRESS)`; an omitted argument is `none`. -/
def getBitcoinAddressNode (lib : Lib Node) (bitcoinKeychain : Node)
    (addressIndex : Option Int) (chainType : Option JsString) : Except JsError Node := do
  let addressIndex := addressIndex.getD 0
  let chainType := chainType.getD EXTERNAL_ADDRESS
  let chain : Int ←
    if chainType = EXTERNAL_ADDRESS then pure 0
    else if chainType = CHANGE_ADDRESS then pure 1
    else throw (JsError.error "Invalid chain type")
  let chainNode ← lib.derive bitcoinKeychain chain
  lib.derive chainNode addressIndex

def IDENTITY_KEYCHAIN : Int := 888
def BLOCKSTACK_ON_BITCOIN : Int := 0

/-- Function `getIdentityPrivateKeychain(masterKeychain)`. -/
def getIdentityPrivateKeychain (lib : Lib Node) (masterKeychain : Node) : Except JsError Node := do
  let keychain ← lib.deriveHardened masterKeychain IDENTITY_KEYCHAIN
  lib.deriveHardened keychain BLOCKSTACK_ON_BITCOIN

/-- Function `getIdentityPublicKeychain(masterKeychain)`. -/
def getIdentityPublicKeychain (lib : Lib Node) (masterKeychain : Node) : Except JsError Node := do
  let keychain ← getIdentityPrivateKeychain lib masterKeychain
  pure (lib.neutered keychain)

/-- Function `getIdentityOwnerAddressNode(identityPrivateKeychain,
identityIndex = 0)`; an omitted index is `none`. The arguments of `new` are
evaluated before the constructor runs: first the hardened child, then the
constructor with the salt. -/
def getIdentityOwnerAddressNode (lib : Lib Node) (identityPrivateKeychain : Node)
    (identityIndex : Option Int) : Except JsError (IdentityAddressOwnerNode Node) := do
  let identityIndex := identityIndex.getD 0
  if lib.isNeutered identityPrivateKeychain then
    throw (JsError.error "You need the private key to generate identity addresses")
  let publicKeyHex := bufferToHex (lib.publicKey identityPrivateKeychain)
  let salt := lib.sha256Hex publicKeyHex
  let ownerHdNode ← lib.deriveHardened identityPrivateKeychain identityIndex
  IdentityAddressOwnerNode.new lib ownerHdNode salt

/-- The record that `deriveIdentityKeyPair` returns. -/
structure IdentityKeyPair where
  key : JsString
  keyID : JsString
  address : JsString
  sharedAppsKey : JsString
  appsNodeKey : JsString
  salt : JsString
deriving DecidableEq, Repr

/-- Function `deriveIdentityKeyPair(identityOwnerAddressNode)`. -/
def deriveIdentityKeyPair (lib : Lib Node)
    (identityOwnerAddressNode : IdentityAddressOwnerNode Node) : Except JsError IdentityKeyPair := do
  let address := identityOwnerAddressNode.getAddress lib
  let identityKey ← identityOwnerAddressNode.getIdentityKey lib
  let identityKeyID := identityOwnerAddressNode.getIdentityKeyID lib
  let appsNode := identityOwnerAddressNode.getAppsNode
  let sharedAppsKey ← identityOwnerAddressNode.getSharedAppsPrivateKey lib
  pure (IdentityKeyPair.mk identityKey identityKeyID address sharedAppsKey
    (appsNode.toBase58 lib) appsNode.getSalt)

/-! ## The account bootstrapper -/

/-- The record that `getBlockchainIdentities` returns. -/
structure BlockchainIdentities where
  identityPublicKeychain : JsString
  bitcoinPublicKeychain : JsString
  firstBitcoinAddress : JsString
  identityAddresses : List JsString
  identityKeypairs : List IdentityKeyPair
deriving DecidableEq, Repr

/-- The `for` loop of `getBlockchainIdentities`, entered with the current value
of `addressIndex` and of the two arrays; `remaining` is the number of iterations
left, `identitiesToGenerate - addressIndex`. -/
def identitiesLoop (lib : Lib Node) (identityPrivateKeychainNode : Node) :
    (remaining : Nat) → (addressIndex : Nat) → List JsString → List IdentityKeyPair →
    Except JsError (List JsString × List IdentityKeyPair)
  | 0, _, identityAddresses, identityKeypairs => pure (identityAddresses, identityKeypairs)
  | remaining + 1, addressIndex, identityAddresses, identityKeypairs => do
    let identityOwnerAddressNode ←
      getIdentityOwnerAddressNode lib identityPrivateKeychainNode (some (addressIndex : Int))
    let identityKeyPair ← deriveIdentityKeyPair lib identityOwnerAddressNode
    identitiesLoop lib identityPrivateKeychainNode remaining (addressIndex + 1)
      (identityAddresses ++ [identityKeyPair.address]) (identityKeypairs ++ [identityKeyPair])

/-- Function `getBlockchainIdentities(masterKeychain, identitiesToGenerate)`. -/
def getBlockchainIdentities (lib : Lib Node) (masterKeychain : Node)
    (identitiesToGenerate : Nat) : Except JsError BlockchainIdentities := do
  let identityPrivateKeychainNode ← getIdentityPrivateKeychain lib masterKeychain
  let bitcoinPrivateKeychainNode ← getBitcoinPrivateKeychain lib masterKeychain
  let identityPublicKeychainNode := lib.neutered identityPrivateKeychainNode
  let identityPublicKeychain := lib.toBase58 identityPublicKeychainNode
  let bitcoinPublicKeychainNode := lib.neutered bitcoinPrivateKeychainNode
  let bitcoinPublicKeychain := lib.toBase58 bitcoinPublicKeychainNode
  let firstNode ← getBitcoinAddressNode lib bitcoinPublicKeychainNode none none
  let firstBitcoinAddress := getAddressFromBIP32Node lib firstNode
  let arrays ← identitiesLoop lib identityPrivateKeychainNode identitiesToGenerate 0 [] []
  pure (BlockchainIdentities.mk identityPublicKeychain bitcoinPublicKeychain firstBitcoinAddress
    arrays.1 arrays.2)

/-! ## Address lookup and trust level -/

/-- The `for` loop of `findAddressIndex`, entered with the current value of `i`
and the entries of `identityAddresses` from position `i` on. -/
def findAddressIndexLoop (address : JsString) : List JsString → Nat → Option Nat
  | [], _ => none
  | entry :: rest, i => if entry = address then some i else findAddressIndexLoop address rest (i + 1)

/-- Function `findAddressIndex(address, identityAddresses)`; `null` is `none`. -/
def findAddressIndex (address : JsString) (identityAddresses : List JsString) : Option Nat :=
  findAddressIndexLoop address identityAddresses 0

/-- A verification: the truth value of its field `valid`. -/
structure Verification where
  valid : Bool
deriving DecidableEq, Repr

/-- Function `calculateTrustLevel(verifications)`; `null` and `undefined` are
`none`. -/
def calculateTrustLevel (verifications : Option (List Verification)) : Nat :=
  match verifications with
  | none => 0
  | some list =>
    if list.length < 1 then 0
    else
      list.foldl
        (fun trustLevel verification =>
          if verification.valid = true ∧ trustLevel < MAX_TRUST_LEVEL then trustLevel + 1
          else trustLevel)
        0

/-- What the code relies on from `bip32` for a child that is not hardened: with
an index in `[0, 2^31)` it can be derived from every node, neutered or not. -/
def Lib.NonHardenedTotal (lib : Lib Node) : Prop :=
  ∀ (n : Node) (i : Int), UInt31 i → ∃ c, lib.derive n i = Except.ok c

/-! ## Decrypting the master keychain -/

/-- The value of one hexadecimal digit, of either case. -/
def hexValue (c : Fin 65536) : Option Nat :=
  if 48 ≤ c.val ∧ c.val ≤ 57 then some (c.val - 48)
  else if 97 ≤ c.val ∧ c.val ≤ 102 then some (c.val - 87)
  else if 65 ≤ c.val ∧ c.val ≤ 70 then some (c.val - 55)
  else none

/-- The expression `new Buffer(string, 'hex')`: one byte per pair of hexadecimal
digits, up to the first pair that is not hexadecimal. -/
def bufferFromHex : JsString → Buffer
  | hi :: lo :: rest =>
    match hexValue hi, hexValue lo with
    | some h, some l => Fin.ofNat (h * 16 + l) :: bufferFromHex rest
    | _, _ => []
  | _ => []

/-- Modelled from the spec: the symmetric secret codec of `./encryption-utils`,
which is not among the sources. `encrypt` binds a payload to a password with
freshly generated random bytes (its third argument) and `decrypt` needs only the
password, failing when the password is wrong or the ciphertext is malformed; the
round trip `decrypt(encrypt(payload, password), password) == payload` holds for
any non-empty payload and any password. -/
structure Codec where
  encrypt : Buffer → JsString → Buffer → Buffer
  decrypt : Buffer → JsString → Except JsError Buffer
  roundTrip : ∀ (payload : Buffer) (password : JsString) (random : Buffer), payload ≠ [] →
    decrypt (encrypt payload password random) password = Except.ok payload

/-- The module `bip39`, as the dynamic `import` delivers it. -/
structure Bip39 where
  validateMnemonic : JsString → Bool
  mnemonicToSeed : JsString → Except JsError Buffer

/-- What `decryptMasterKeychain` and its test call besides the codec: the
dynamic import of `bip39`, the conversions `new Buffer(string)` and
`buffer.toString()` between a string and its UTF-8 bytes, and `bip32.fromSeed`.
A rejected promise is an error. -/
structure SeedLib (Node : Type) where
  codec : Codec
  bip39Import : Except JsError Bip39
  utf8Encode : JsString → Buffer
  utf8Decode : Buffer → JsString
  fromSeed : Buffer → Except JsError Node

/-- The body of the `try` block of `decryptMasterKeychain`. -/
def decryptMasterKeychainTry (lib : SeedLib Node) (password encryptedBackupPhrase : JsString) :
    Except JsError Node := do
  let dataBuffer := bufferFromHex encryptedBackupPhrase
  let plaintextBuffer ← lib.codec.decrypt dataBuffer password
  let bip39 ← lib.bip39Import
  let backupPhrase := lib.utf8Decode plaintextBuffer
  let seed ← bip39.mnemonicToSeed backupPhrase
  let masterKeychain ← lib.fromSeed seed
  pure masterKeychain

/-- Function `decryptMasterKeychain(password, encryptedBackupPhrase)`: the `try`
block, and the `catch` that replaces every error. -/
def decryptMasterKeychain (lib : SeedLib Node) (password encryptedBackupPhrase : JsString) :
    Except JsError Node :=
  match decryptMasterKeychainTry lib password encryptedBackupPhrase with
  | Except.ok masterKeychain => Except.ok masterKeychain
  | Except.error _ => Except.error (JsError.error "Incorrect password")

/-! ## Uploading a profile -/

/-- Type `GaiaHubConfig` of `blockstack`. -/
structure GaiaHubConfig where
  url_prefix : JsString
  address : JsString
  token : JsString
  server : JsString
deriving DecidableEq, Repr

/-- The local `readPrefix` of `canWriteUrl`. -/
def readPrefixOf (hubConfig : GaiaHubConfig) : JsString :=
  GaiaHubConfig.url_prefix hubConfig ++ hubConfig.address ++ js "/"

/-- Function `canWriteUrl(url, hubConfig)`; `null` is `none`. -/
def canWriteUrl (url : JsString) (hubConfig : GaiaHubConfig) : Option JsString :=
  if (readPrefixOf hubConfig).isPrefixOf url then some (url.drop (readPrefixOf hubConfig).length)
  else none

/-- A call `uploadToGaiaHub(filename, contents, hubConfig, contentType)`. The
promise that the call returns is represented by the call itself: a value of
this type is a write handed to the hub. -/
structure GaiaUpload where
  filename : JsString
  contents : JsString
  hubConfig : GaiaHubConfig
  contentType : Option JsString
deriving DecidableEq, Repr

/-- Function `tryUpload(urlToWrite, data, hubConfig, mimeType)`. -/
def tryUpload (urlToWrite data : JsString) (hubConfig : GaiaHubConfig)
    (mimeType : Option JsString) : Option GaiaUpload :=
  match canWriteUrl urlToWrite hubConfig with
  | none => none
  | some filenameWrite => some (GaiaUpload.mk filenameWrite data hubConfig mimeType)

/-- What the upload functions call from `blockstack`, `zone-file` and
`@utils/zone-utils`: `connectToGaiaHub(gaiaHubUrl, key)`, and the token file URL
of a zone file, `getTokenFileUrlFromZoneFile(parseZoneFile(zoneFile))`. -/
structure HubLib where
  connectToGaiaHub : JsString → JsString → Except JsError GaiaHubConfig
  tokenFileUrl : JsString → Except JsError JsString

/-- The argument `api` of the upload functions. -/
structure Api where
  gaiaHubConfig : GaiaHubConfig
  gaiaHubUrl : JsString

/-- The argument `identity` of the upload functions: its field `zoneFile`. -/
structure Identity where
  zoneFile : Option JsString

/-- Function `getProfileUploadLocation(identity, hubConfig)`; an absent or empty
`zoneFile` is falsy. -/
def getProfileUploadLocation (lib : HubLib) (identity : Identity) (hubConfig : GaiaHubConfig) :
    Except JsError JsString :=
  match identity.zoneFile with
  | some zoneFile =>
    if zoneFile ≠ [] then lib.tokenFileUrl zoneFile
    else pure (GaiaHubConfig.url_prefix hubConfig ++ hubConfig.address ++ js "/profile.json")
  | none => pure (GaiaHubConfig.url_prefix hubConfig ++ hubConfig.address ++ js "/profile.json")

/-- A JavaScript string inside an error message. -/
def jsToString (s : JsString) : String := String.mk (s.map (fun c => Char.ofNat c.val))

/-- The error of the upload functions when no hub configuration fits. -/
def unknownUploadTarget (urlToWrite : JsString) : JsError :=
  JsError.error ("Wanted to write to " ++ jsToString urlToWrite ++ " but I don\x27t know how.")

/-- Function `uploadProfile(api, identity, identityKeyPair, signedProfileTokenData)`;
of `identityKeyPair` only the field `key` is read. -/
def uploadProfile (lib : HubLib) (api : Api) (identity : Identity) (identityKey : JsString)
    (signedProfileTokenData : JsString) : Except JsError GaiaUpload := do
  let identityHubConfig ← lib.connectToGaiaHub api.gaiaHubUrl identityKey
  let globalHubConfig := api.gaiaHubConfig
  let urlToWrite ← getProfileUploadLocation lib identity identityHubConfig
  let uploadAttempt :=
    tryUpload urlToWrite signedProfileTokenData identityHubConfig (some (js "application/json"))
  let uploadAttempt :=
    match uploadAttempt with
    | none =>
      tryUpload urlToWrite signedProfileTokenData globalHubConfig (some (js "application/json"))
    | some attempt => some attempt
  match uploadAttempt with
  | none => throw (unknownUploadTarget urlToWrite)
  | some attempt => pure attempt

/-! ## Profile completeness and the seed groups -/

/-- The argument `profile` of `calculateProfileCompleteness`: its fields `name`,
`description` and `image`; an absent field is `none`. -/
structure Profile where
  name : Option JsString
  description : Option JsString
  image : Option JsString
deriving DecidableEq, Repr

/-- Function `calculateProfileCompleteness(profile, verifications)`. The quotient
of the two small integers is exact in floating point and is a rational here. -/
def calculateProfileCompleteness (profile : Profile)
    (verifications : Option (List Verification)) : ℚ :=
  let totalItems : Nat := 2
  let maxVerificationItems : Nat := 1
  let complete : Nat :=
    match profile.name with
    | some name => if name.length > 0 then 1 else 0
    | none => 0
  let complete := complete + min (calculateTrustLevel verifications) maxVerificationItems
  (complete : ℚ) / (totalItems : ℚ)

/-- The method `string.split(' ')` of `app/js/seed/index.js`: the pieces between
the spaces, empty pieces included. -/
def splitOnSpace : JsString → List JsString
  | [] => [[]]
  | c :: rest =>
    if c = 32 then [] :: splitOnSpace rest
    else
      match splitOnSpace rest with
      | word :: words => (c :: word) :: words
      | [] => [[c]]

/-- The method `array.join(' ')`: the pieces with one space between
neighbours. -/
def joinWithSpace : List JsString → JsString
  | [] => []
  | [word] => word
  | word :: next :: words => word ++ (32 : Fin 65536) :: joinWithSpace (next :: words)

/-- The local `x` of `splitSeed`: the pieces of a seed that is neither `null` nor
empty, and the empty array otherwise. -/
def seedWords (seed : Option JsString) : List JsString :=
  match seed with
  | some s => if s ≠ [] then splitOnSpace s else []
  | none => []

/-- The record that `splitSeed` returns; `undefined` is `none`. -/
structure SeedGroups where
  first : List (Option JsString)
  second : List (Option JsString)
  third : List (Option JsString)
deriving DecidableEq, Repr

/-- Function `splitSeed(seed)` of `app/js/seed/index.js`. -/
def splitSeed (seed : Option JsString) : SeedGroups :=
  let x := seedWords seed
  SeedGroups.mk [x[0]?, x[1]?, x[2]?, x[3]?] [x[4]?, x[5]?, x[6]?, x[7]?]
    [x[8]?, x[9]?, x[10]?, x[11]?]

/-- The backup phrase of the test file. -/
def testBackupPhrase : JsString :=
  js "sound idle panel often situate develop unit text design antenna vendor screen opinion balcony share trigger accuse scatter visa uniform brass update opinion media"

/-! ## A symbolic key tree

An instance of the library interface on which the functions above can be
evaluated: a node is the list of child numbers that lead to it from the master
node, together with the flag that tells whether it still holds its private key.
Keys, digests and addresses are stand-ins that record their arguments. -/

/-- A symbolic key node. -/
structure SymNode where
  path : List Nat
  hasPrivate : Bool
deriving DecidableEq, Repr

/-- The bytes that stand for a path: each child number modulo 256. -/
def symBytes (tag : Nat) (path : List Nat) : Buffer :=
  Fin.ofNat tag :: path.map (fun i => Fin.ofNat i)

/-- The symbolic library: a hardened child has the child number `i + 2^31` and
needs the private key of its parent. -/
def symLib : Lib SymNode where
  sha256Hex := fun s => bufferToHex (s.map (fun c => Fin.ofNat c.val))
  isNeutered := fun n => !n.hasPrivate
  publicKey := fun n => symBytes 2 n.path
  privateKey := fun n => if n.hasPrivate then some (symBytes 1 n.path) else none
  deriveHardened := fun n i =>
    if 0 ≤ i ∧ i < 2147483648 then
      if n.hasPrivate then Except.ok (SymNode.mk (n.path ++ [i.toNat + 2147483648]) true)
      else Except.error (JsError.typeError "Missing private key for hardened child key")
    else Except.error (JsError.typeError "Expected UInt31")
  derive := fun n i =>
    if 0 ≤ i ∧ i < 4294967296 then
      if 2147483648 ≤ i ∧ n.hasPrivate = false then
        Except.error (JsError.typeError "Missing private key for hardened child key")
      else Except.ok (SymNode.mk (n.path ++ [i.toNat]) n.hasPrivate)
    else Except.error (JsError.typeError "Expected UInt32")
  neutered := fun n => SymNode.mk n.path false
  toBase58 := fun n => bufferToHex (symBytes (if n.hasPrivate then 4 else 3) n.path)
  p2pkhAddress := fun pubkey => bufferToHex pubkey

/-- The symbolic master node. -/
def symMaster : SymNode := SymNode.mk [] true

/-- The symbolic identity keychain: the master node, then the hardened children
888 and 0. -/
def symIdentityKeychain : SymNode := SymNode.mk [2147484536, 2147483648] true

/-- The outcome of `getBlockchainIdentities` for two identities on the symbolic
key tree. -/
def symIdentities : BlockchainIdentities :=
  match getBlockchainIdentities symLib symMaster 2 with
  | Except.ok r => r
  | Except.error _ => BlockchainIdentities.mk [] [] [] [] []

/-- The symbolic owner key node of identity 0. -/
def symOwnerHdNode : SymNode := SymNode.mk [2147484536, 2147483648, 2147483648] true

/-- The symbolic owner node of identity 0 with the salt `s`. -/
def symOwner : IdentityAddressOwnerNode SymNode :=
  IdentityAddressOwnerNode.mk symOwnerHdNode (js "s")
    (AppsNode.mk (SymNode.mk [2147484536, 2147483648, 2147483648, 2147483648] true) (js "s"))

/-! ## A symbolic codec, seed library and hub

Stand-ins on which `decryptMasterKeychain` and `uploadProfile` can be evaluated.
The ciphertext of the codec is a tag of the password and of the first random
byte, that byte, and the payload; a keychain is represented by its seed; the
string conversions are those of UTF-8 on ASCII strings. -/

/-- The tag of a password and a random byte in the symbolic codec. -/
def symTag (password : JsString) (r : Fin 256) : Fin 256 :=
  Fin.ofNat (password.foldl (fun acc c => acc + c.val) r.val)

/-- The symbolic codec. -/
def symCodec : Codec where
  encrypt := fun payload password random =>
    symTag password (random.headD 0) :: random.headD 0 :: payload
  decrypt := fun data password =>
    match data with
    | t :: r :: payload =>
      if t = symTag password r then Except.ok payload
      else Except.error (JsError.error "Decryption failed")
    | _ => Except.error (JsError.error "Decryption failed")
  roundTrip := by
    intro payload password random _
    simp

/-- The symbolic module `bip39`: the seed of a phrase is its bytes. -/
def symBip39 : Bip39 :=
  Bip39.mk (fun _ => true) (fun phrase => Except.ok (phrase.map (fun c => Fin.ofNat c.val)))

/-- The symbolic seed library: a keychain is its seed, of 16 to 64 bytes. -/
def symSeedLib : SeedLib Buffer where
  codec := symCodec
  bip39Import := Except.ok symBip39
  utf8Encode := fun s => s.map (fun c => Fin.ofNat c.val)
  utf8Decode := fun b => b.map (fun x => Fin.ofNat x.val)
  fromSeed := fun seed =>
    if 16 ≤ seed.length ∧ seed.length ≤ 64 then Except.ok seed
    else Except.error (JsError.typeError "Seed should be at least 128 bits")

/-- The phrase of the symbolic round trip. -/
def symPhrase : JsString := js "sound idle panel often"

/-- The symbolic hub library: the hub configuration of a key lives under
`https://hub/` at the address that is the key, and the token file URL of a zone
file is the zone file itself. -/
def symHubLib : HubLib where
  connectToGaiaHub := fun gaiaHubUrl key =>
    Except.ok (GaiaHubConfig.mk (js "https://hub/") key (js "token") gaiaHubUrl)
  tokenFileUrl := fun zoneFile => Except.ok zoneFile

/-- The symbolic `api`: the global hub configuration has the address `global`. -/
def symApi : Api :=
  Api.mk (GaiaHubConfig.mk (js "https://hub/") (js "global") (js "token") (js "https://hub"))
    (js "https://hub")

/-! ## 32-bit arithmetic -/

theorem toUint32_cast (x : Int) : ((toUint32 x : Nat) : Int) = x % 4294967296 := by
  unfold toUint32
  exact Int.toNat_of_nonneg (Int.emod_nonneg _ (by norm_num))

theorem toInt32_emod (x : Int) : toInt32 x % 4294967296 = x % 4294967296 := by
  unfold toInt32
  have h := toUint32_cast x
  split <;> omega

theorem toInt32_of_lt (n : Nat) (h : n < 2147483648) : toInt32 (n : Int) = n := by
  unfold toInt32
  have h1 := toUint32_cast (n : Int)
  split <;> omega

theorem jsAnd_self (x : Int) : jsAnd x x = toInt32 x := by
  unfold jsAnd
  rw [Nat.and_self, toUint32_cast]
  unfold toInt32
  have : toUint32 (x % 4294967296) = toUint32 x := by
    unfold toUint32
    rw [Int.emod_emod_of_dvd _ (dvd_refl _)]
  rw [this]

theorem jsShl_five_emod (x : Int) : jsShl x 5 % 4294967296 = (x * 32) % 4294967296 := by
  unfold jsShl
  rw [toInt32_emod, Nat.shiftLeft_eq]
  have h := toUint32_cast x
  push_cast
  rw [h]
  omega

theorem jsAnd_mask (x : Int) : jsAnd x 2147483647 = x % 2147483648 := by
  unfold jsAnd
  have hm : toUint32 2147483647 = 2 ^ 31 - 1 := by decide
  rw [hm, Nat.and_pow_two_sub_one_eq_mod]
  have hlt : toUint32 x % 2 ^ 31 < 2147483648 := Nat.mod_lt _ (by norm_num)
  rw [toInt32_of_lt _ hlt]
  have h := toUint32_cast x
  push_cast
  omega

/-! ## The loop of `hashCode` against the fold of the specification -/

/-- One iteration of the loop multiplies by 31 and adds the code unit, modulo
`2^32`. -/
theorem hashCode_step_emod (h : Int) (c : Fin 65536) :
    jsAnd (jsShl h 5 - h + (c.val : Int)) (jsShl h 5 - h + (c.val : Int)) % 4294967296
      = (h * 31 + (c.val : Int)) % 4294967296 := by
  rw [jsAnd_self, toInt32_emod]
  have h5 := jsShl_five_emod h
  omega

/-- The loop and the fold agree modulo `2^31` from related starting values. -/
theorem hashCodeLoop_emod (s : List (Fin 65536)) :
    ∀ (h : Int) (g : Nat), h % 2147483648 = (g : Int) →
      hashCodeLoop h s % 2147483648 = (specFold g s : Int) := by
  induction s with
  | nil => intro h g hg; simpa [hashCodeLoop, specFold] using hg
  | cons c rest ih =>
    intro h g hg
    have hstep := hashCode_step_emod h c
    have hrel : jsAnd (jsShl h 5 - h + (c.val : Int)) (jsShl h 5 - h + (c.val : Int)) % 2147483648
        = (((g * 31 + c.val) % 2147483648 : Nat) : Int) := by
      push_cast
      omega
    have := ih _ _ hrel
    simpa [hashCodeLoop, specFold] using this

theorem specFold_lt (s : List (Fin 65536)) :
    ∀ g : Nat, g < 2147483648 → specFold g s < 2147483648 := by
  induction s with
  | nil => intro g hg; simpa [specFold] using hg
  | cons c rest ih =>
    intro g _
    have := ih ((g * 31 + c.val) % 2147483648) (Nat.mod_lt _ (by norm_num))
    simpa [specFold] using this

theorem specFold_mod_poly (s : List (Fin 65536)) :
    ∀ g : Nat, specFold g s % 2147483648 = (g * 31 ^ s.length + polyValue s) % 2147483648 := by
  induction s with
  | nil => intro g; simp [specFold, polyValue]
  | cons c rest ih =>
    intro g
    have h1 := ih ((g * 31 + c.val) % 2147483648)
    have h2 : specFold g (c :: rest) = specFold ((g * 31 + c.val) % 2147483648) rest := by
      simp [specFold]
    rw [h2, h1]
    simp only [List.length_cons, polyValue, pow_succ]
    have h3 : ((g * 31 + c.val) % 2147483648 * 31 ^ rest.length) % 2147483648
        = ((g * 31 + c.val) * 31 ^ rest.length) % 2147483648 := by
      rw [Nat.mul_mod, Nat.mod_mod, ← Nat.mul_mod]
    rw [Nat.add_mod, h3, ← Nat.add_mod]
    congr 1
    ring

theorem hashCode_eq_fold (s : JsString) : hashCode s = (specFold 0 s : Int) := by
  unfold hashCode
  split
  · next h =>
    have : s = [] := List.length_eq_zero.mp h
    subst this
    simp [specFold]
  · rw [jsAnd_mask, hashCodeLoop_emod s 0 0 (by norm_num)]

/-! ## Shared facts about the key tree -/

theorem hashCode_uint31 (s : JsString) : UInt31 (hashCode s) := by
  rw [hashCode_eq_fold]
  have := specFold_lt s 0 (by norm_num)
  unfold UInt31
  omega

theorem getAppNode_eq (lib : Lib Node) (a : AppsNode Node) (d : JsString) :
    a.getAppNode lib d
      = (lib.deriveHardened a.hdNode (a.appIndex lib d)).map (fun c => AppNode.mk c d) := by
  show (lib.deriveHardened a.hdNode (a.appIndex lib d) >>= fun c => pure (AppNode.mk c d)) = _
  cases lib.deriveHardened a.hdNode (a.appIndex lib d) <;> rfl

theorem symLib_lawful : symLib.Lawful := by
  constructor
  · intro n i hn hi
    have hp : n.hasPrivate = true := by simpa [symLib] using hn
    have hi2 : 0 ≤ i ∧ i < 2147483648 := hi
    exact ⟨SymNode.mk (n.path ++ [i.toNat + 2147483648]) true, by simp [symLib, hp, hi2], rfl⟩
  · intro n i hn
    have hp : n.hasPrivate = false := by simpa [symLib] using hn
    by_cases hi : 0 ≤ i ∧ i < 2147483648
    · exact ⟨JsError.typeError "Missing private key for hardened child key",
        by simp [symLib, hp, hi]⟩
    · exact ⟨JsError.typeError "Expected UInt31", by simp only [symLib, hi, if_false]⟩
  · intro n
    cases h : n.hasPrivate <;> simp [symLib, h]

/-- The guard of `getIdentityOwnerAddressNode` comes first: a neutered keychain
raises its error whatever the library computes. -/
theorem ownerNode_of_neutered (lib : Lib Node) (k : Node) (i : Option Int)
    (hk : lib.isNeutered k = true) :
    getIdentityOwnerAddressNode lib k i
      = Except.error (JsError.error "You need the private key to generate identity addresses") := by
  simp [getIdentityOwnerAddressNode, hk]
  rfl

theorem ownerNode_of_private (lib : Lib Node) (k : Node) (i : Option Int)
    (hk : lib.isNeutered k = false) :
    getIdentityOwnerAddressNode lib k i
      = (lib.deriveHardened k (i.getD 0) >>= fun n =>
          IdentityAddressOwnerNode.new lib n (lib.sha256Hex (bufferToHex (lib.publicKey k)))) := by
  simp [getIdentityOwnerAddressNode, hk]

theorem ownerNode_new_eq (lib : Lib Node) (n a : Node) (t : JsString)
    (ha : lib.deriveHardened n APPS_NODE_INDEX = Except.ok a) :
    IdentityAddressOwnerNode.new lib n t
      = Except.ok (IdentityAddressOwnerNode.mk n t (AppsNode.mk a t)) := by
  simp [IdentityAddressOwnerNode.new, ha]

/-- On a lawful library the owner node of a private keychain at a valid index
exists, and it is built from the two hardened children and the salt. -/
theorem ownerNode_exists (lib : Lib Node) (hl : lib.Lawful) (k : Node) (i : Int)
    (hk : lib.isNeutered k = false) (hi : UInt31 i) :
    ∃ n a, lib.deriveHardened k i = Except.ok n ∧ lib.isNeutered n = false
      ∧ lib.deriveHardened n APPS_NODE_INDEX = Except.ok a ∧ lib.isNeutered a = false
      ∧ getIdentityOwnerAddressNode lib k (some i)
          = Except.ok (IdentityAddressOwnerNode.mk n
              (lib.sha256Hex (bufferToHex (lib.publicKey k)))
              (AppsNode.mk a (lib.sha256Hex (bufferToHex (lib.publicKey k))))) := by
  obtain ⟨n, hn, hnp⟩ := hl.hardened_of_private k i hk hi
  obtain ⟨a, ha, hap⟩ := hl.hardened_of_private n APPS_NODE_INDEX hnp (by decide)
  refine ⟨n, a, hn, hnp, ha, hap, ?_⟩
  rw [ownerNode_of_private lib k (some i) hk]
  show (lib.deriveHardened k i >>= _) = _
  rw [hn]
  exact ownerNode_new_eq lib n a _ ha

/-- On a lawful library a node on which `deriveHardened` succeeds holds its
private key. -/
theorem private_of_hardened_ok (lib : Lib Node) (hl : lib.Lawful) (n c : Node) (i : Int)
    (h : lib.deriveHardened n i = Except.ok c) : lib.isNeutered n = false := by
  cases hn : lib.isNeutered n with
  | false => rfl
  | true =>
    obtain ⟨e, he⟩ := hl.hardened_of_neutered n i hn
    rw [he] at h
    cases h

theorem privateKey_of_private (lib : Lib Node) (hl : lib.Lawful) (n : Node)
    (hn : lib.isNeutered n = false) : ∃ b, lib.privateKey n = some b := by
  have h := hl.private_iff n
  rw [hn] at h
  exact Option.isSome_iff_exists.mp h

/-- When the loop of `getBlockchainIdentities` returns, it has appended one key
pair per remaining index, in index order, and the address of each to the other
array. -/
theorem identitiesLoop_ok (lib : Lib Node) (k : Node) :
    ∀ (remaining addressIndex : Nat) (addrs : List JsString) (kps : List IdentityKeyPair)
      (res : List JsString × List IdentityKeyPair),
      identitiesLoop lib k remaining addressIndex addrs kps = Except.ok res →
      ∃ l : List IdentityKeyPair, l.length = remaining
        ∧ res = (addrs ++ l.map (fun kp => kp.address), kps ++ l)
        ∧ ∀ j, j < remaining → ∃ o kp, l[j]? = some kp
            ∧ getIdentityOwnerAddressNode lib k (some ((addressIndex + j : Nat) : Int)) = Except.ok o
            ∧ deriveIdentityKeyPair lib o = Except.ok kp := by
  intro remaining
  induction remaining with
  | zero =>
    intro idx addrs kps res h
    refine ⟨[], rfl, ?_, fun j hj => absurd hj (Nat.not_lt_zero j)⟩
    simp [identitiesLoop] at h
    cases h
    simp
  | succ r ih =>
    intro idx addrs kps res h
    rw [identitiesLoop] at h
    cases ho : getIdentityOwnerAddressNode lib k (some (idx : Int)) with
    | error e => rw [ho] at h; cases h
    | ok o =>
      rw [ho] at h
      cases hkp : deriveIdentityKeyPair lib o with
      | error e =>
        have h2 : (Except.error e : Except JsError (List JsString × List IdentityKeyPair))
            = Except.ok res := by
          rw [← h]; show _ = (deriveIdentityKeyPair lib o >>= _); rw [hkp]; rfl
        cases h2
      | ok kp =>
        have h2 : identitiesLoop lib k r (idx + 1) (addrs ++ [kp.address]) (kps ++ [kp])
            = Except.ok res := by
          rw [← h]; show _ = (deriveIdentityKeyPair lib o >>= _); rw [hkp]; rfl
        obtain ⟨l, hlen, hres, hall⟩ := ih _ _ _ _ h2
        refine ⟨kp :: l, by simp [hlen], by simp [hres], ?_⟩
        intro j hj
        cases j with
        | zero => exact ⟨o, kp, by simp, by simpa using ho, hkp⟩
        | succ j =>
          obtain ⟨o2, kp2, h1, h2, h3⟩ := hall j (by omega)
          refine ⟨o2, kp2, by simpa using h1, ?_, h3⟩
          have : idx + 1 + j = idx + (j + 1) := by omega
          rw [← this]
          exact h2
/-- When `getBlockchainIdentities` returns, its two arrays come from one list of
key pairs, one per index below the count. -/
theorem getBlockchainIdentities_ok (lib : Lib Node) (m : Node) (n : Nat)
    (r : BlockchainIdentities) (h : getBlockchainIdentities lib m n = Except.ok r) :
    ∃ k, getIdentityPrivateKeychain lib m = Except.ok k
      ∧ r.identityKeypairs.length = n
      ∧ r.identityAddresses = r.identityKeypairs.map (fun kp => kp.address)
      ∧ ∀ j, j < n → ∃ o kp, r.identityKeypairs[j]? = some kp
          ∧ getIdentityOwnerAddressNode lib k (some (j : Int)) = Except.ok o
          ∧ deriveIdentityKeyPair lib o = Except.ok kp := by
  unfold getBlockchainIdentities at h
  cases hk : getIdentityPrivateKeychain lib m with
  | error e => rw [hk] at h; cases h
  | ok k =>
    rw [hk] at h
    cases hb : getBitcoinPrivateKeychain lib m with
    | error e =>
      have h2 : (Except.error e : Except JsError BlockchainIdentities) = Except.ok r := by
        rw [← h]; show _ = (getBitcoinPrivateKeychain lib m >>= _); rw [hb]; rfl
      cases h2
    | ok b =>
      cases hf : getBitcoinAddressNode lib (lib.neutered b) none none with
      | error e =>
        have h2 : (Except.error e : Except JsError BlockchainIdentities) = Except.ok r := by
          rw [← h]; show _ = (getBitcoinPrivateKeychain lib m >>= _); rw [hb]
          show _ = (getBitcoinAddressNode lib (lib.neutered b) none none >>= _); rw [hf]; rfl
        cases h2
      | ok f =>
        cases hl : identitiesLoop lib k n 0 [] [] with
        | error e =>
          have h2 : (Except.error e : Except JsError BlockchainIdentities) = Except.ok r := by
            rw [← h]; show _ = (getBitcoinPrivateKeychain lib m >>= _); rw [hb]
            show _ = (getBitcoinAddressNode lib (lib.neutered b) none none >>= _); rw [hf]
            show _ = (identitiesLoop lib k n 0 [] [] >>= _); rw [hl]; rfl
          cases h2
        | ok arrays =>
          have h2 : (Except.ok (BlockchainIdentities.mk (lib.toBase58 (lib.neutered k))
              (lib.toBase58 (lib.neutered b)) (getAddressFromBIP32Node lib f) arrays.1 arrays.2)
              : Except JsError BlockchainIdentities) = Except.ok r := by
            rw [← h]; show _ = (getBitcoinPrivateKeychain lib m >>= _); rw [hb]
            show _ = (getBitcoinAddressNode lib (lib.neutered b) none none >>= _); rw [hf]
            show _ = (identitiesLoop lib k n 0 [] [] >>= _); rw [hl]; rfl
          cases h2
          obtain ⟨l, hlen, hres, hall⟩ := identitiesLoop_ok lib k n 0 [] [] arrays hl
          simp at hres
          subst hres
          refine ⟨k, rfl, hlen, rfl, ?_⟩
          intro j hj
          obtain ⟨o, kp, h1, h2, h3⟩ := hall j hj
          exact ⟨o, kp, h1, by simpa using h2, h3⟩

/-! ## Lookup and trust level: shared facts -/

theorem findAddressIndexLoop_none (a : JsString) :
    ∀ (l : List JsString) (i : Nat), findAddressIndexLoop a l i = none ↔ a ∉ l := by
  intro l
  induction l with
  | nil => intro i; simp [findAddressIndexLoop]
  | cons x rest ih =>
    intro i
    by_cases hx : x = a
    · simp [findAddressIndexLoop, hx]
    · have hne : ¬ a = x := fun h => hx h.symm
      simp [findAddressIndexLoop, hx, hne, ih]

theorem findAddressIndexLoop_some (a : JsString) :
    ∀ (l : List JsString) (i r : Nat), findAddressIndexLoop a l i = some r →
      ∃ j, r = i + j ∧ l[j]? = some a ∧ ∀ j2, j2 < j → l[j2]? ≠ some a := by
  intro l
  induction l with
  | nil => intro i r h; simp [findAddressIndexLoop] at h
  | cons x rest ih =>
    intro i r h
    by_cases hx : x = a
    · simp [findAddressIndexLoop, hx] at h
      exact ⟨0, by omega, by simp [hx], fun j2 hj2 => absurd hj2 (Nat.not_lt_zero j2)⟩
    · simp [findAddressIndexLoop, hx] at h
      obtain ⟨j, hr, hj, hmin⟩ := ih (i + 1) r h
      refine ⟨j + 1, by omega, by simpa using hj, ?_⟩
      intro j2 hj2
      cases j2 with
      | zero => simpa using hx
      | succ j3 => simpa using hmin j3 (by omega)

/-- The loop of `calculateTrustLevel` from a running value at most the maximum:
it adds the number of valid entries and stops at the maximum. -/
theorem trustLevel_foldl (l : List Verification) :
    ∀ t : Nat, t ≤ MAX_TRUST_LEVEL →
      l.foldl
          (fun trustLevel verification =>
            if verification.valid = true ∧ trustLevel < MAX_TRUST_LEVEL then trustLevel + 1
            else trustLevel)
          t
        = min (t + l.countP (fun v => v.valid)) MAX_TRUST_LEVEL := by
  induction l with
  | nil => intro t ht; simp [Nat.min_eq_left ht]
  | cons v rest ih =>
    intro t ht
    simp only [List.foldl_cons, List.countP_cons]
    by_cases hv : v.valid = true
    · by_cases hlt : t < MAX_TRUST_LEVEL
      · rw [if_pos ⟨hv, hlt⟩, ih (t + 1) hlt]
        simp [hv]
        omega
      · rw [if_neg (fun h => hlt h.2), ih t ht]
        have : t = MAX_TRUST_LEVEL := by omega
        simp [hv, this]
    · rw [if_neg (fun h => hv h.1), ih t ht]
      simp [hv]

theorem calculateTrustLevel_eq (l : List Verification) :
    calculateTrustLevel (some l) = min (l.countP (fun v => v.valid)) MAX_TRUST_LEVEL := by
  unfold calculateTrustLevel
  simp only
  split
  · next h =>
    have : l = [] := by
      cases l with
      | nil => rfl
      | cons _ _ => simp at h
    subst this
    simp
  · simpa using trustLevel_foldl l 0 (Nat.zero_le _)

/-! ## Keychains: shared facts -/

theorem symLib_nonHardenedTotal : symLib.NonHardenedTotal := by
  intro n i hi
  have hi2 : 0 ≤ i ∧ i < 2147483648 := hi
  have h1 : 0 ≤ i ∧ i < 4294967296 := ⟨hi2.1, by omega⟩
  have h2 : ¬ (2147483648 ≤ i ∧ n.hasPrivate = false) := fun h => by omega
  exact ⟨SymNode.mk (n.path ++ [i.toNat]) n.hasPrivate, by simp only [symLib, h1, h2]; simp⟩

theorem getBitcoinAddressNode_external (lib : Lib Node) (k : Node) (i : Option Int) :
    getBitcoinAddressNode lib k i (some EXTERNAL_ADDRESS)
      = (lib.derive k 0 >>= fun n => lib.derive n (i.getD 0)) := by
  simp [getBitcoinAddressNode]

theorem getBitcoinAddressNode_change (lib : Lib Node) (k : Node) (i : Option Int) :
    getBitcoinAddressNode lib k i (some CHANGE_ADDRESS)
      = (lib.derive k 1 >>= fun n => lib.derive n (i.getD 0)) := by
  have hne : CHANGE_ADDRESS ≠ EXTERNAL_ADDRESS := by decide
  simp [getBitcoinAddressNode, hne]

/-- The chain type is checked before any derivation: with another chain type the
error is raised whatever the library computes. -/
theorem getBitcoinAddressNode_invalid (lib : Lib Node) (k : Node) (i : Option Int)
    (c : JsString) (h0 : c ≠ EXTERNAL_ADDRESS) (h1 : c ≠ CHANGE_ADDRESS) :
    getBitcoinAddressNode lib k i (some c) = Except.error (JsError.error "Invalid chain type") := by
  simp [getBitcoinAddressNode, h0, h1]
  rfl

theorem derive_two_ok (lib : Lib Node) (hd : lib.NonHardenedTotal) (k : Node) (chain i : Int)
    (hc : UInt31 chain) (hi : UInt31 i) :
    ∃ a b, lib.derive k chain = Except.ok a ∧ lib.derive a i = Except.ok b
      ∧ (lib.derive k chain >>= fun n => lib.derive n i) = Except.ok b := by
  obtain ⟨a, ha⟩ := hd k chain hc
  obtain ⟨b, hb⟩ := hd a i hi
  refine ⟨a, b, ha, hb, ?_⟩
  rw [ha]
  exact hb

theorem hardened_chain_two (lib : Lib Node) (hl : lib.Lawful) (m : Node) (i j : Int)
    (hm : lib.isNeutered m = false) (hi : UInt31 i) (hj : UInt31 j) :
    ∃ a b, lib.deriveHardened m i = Except.ok a ∧ lib.deriveHardened a j = Except.ok b
      ∧ lib.isNeutered b = false
      ∧ (lib.deriveHardened m i >>= fun n => lib.deriveHardened n j) = Except.ok b := by
  obtain ⟨a, ha, hap⟩ := hl.hardened_of_private m i hm hi
  obtain ⟨b, hb, hbp⟩ := hl.hardened_of_private a j hap hj
  refine ⟨a, b, ha, hb, hbp, ?_⟩
  rw [ha]
  exact hb

/-! ## Decryption and upload: shared facts -/

theorem hexValue_hexDigit : ∀ n, n < 16 → hexValue (hexDigit n) = some n := by decide

theorem byte_of_nibbles (x : Fin 256) :
    (Fin.ofNat (x.val / 16 * 16 + x.val % 16) : Fin 256) = x := by
  apply Fin.ext
  simp [Fin.ofNat]
  omega

/-- The hexadecimal encoding of a buffer loses nothing. -/
theorem bufferFromHex_bufferToHex (b : Buffer) : bufferFromHex (bufferToHex b) = b := by
  induction b with
  | nil => rfl
  | cons x rest ih =>
    have h1 : x.val / 16 < 16 := by omega
    have h2 : x.val % 16 < 16 := by omega
    have hcons : bufferToHex (x :: rest)
        = hexDigit (x.val / 16) :: hexDigit (x.val % 16) :: bufferToHex rest := by
      simp [bufferToHex]
    rw [hcons, bufferFromHex, hexValue_hexDigit _ h1, hexValue_hexDigit _ h2]
    simp only
    rw [ih, byte_of_nibbles]

/-- When the first three steps of the `try` block succeed, its outcome is that
of `bip32.fromSeed`. -/
theorem decryptMasterKeychainTry_steps (lib : SeedLib Node) (p e : JsString) (plaintext : Buffer)
    (bip39 : Bip39) (seed : Buffer)
    (h1 : lib.codec.decrypt (bufferFromHex e) p = Except.ok plaintext)
    (h2 : lib.bip39Import = Except.ok bip39)
    (h3 : bip39.mnemonicToSeed (lib.utf8Decode plaintext) = Except.ok seed) :
    decryptMasterKeychainTry lib p e = lib.fromSeed seed := by
  simp only [decryptMasterKeychainTry, h1, h2]
  show (bip39.mnemonicToSeed (lib.utf8Decode plaintext) >>= _) = _
  rw [h3]
  show (lib.fromSeed seed >>= pure) = _
  cases lib.fromSeed seed <;> rfl

/-- The `catch` of `decryptMasterKeychain` keeps a result and replaces an error. -/
theorem decryptMasterKeychain_of_try_ok (lib : SeedLib Node) (p e : JsString) (kc : Node)
    (h : decryptMasterKeychainTry lib p e = Except.ok kc) :
    decryptMasterKeychain lib p e = Except.ok kc := by
  simp [decryptMasterKeychain, h]

theorem decryptMasterKeychain_of_try_error (lib : SeedLib Node) (p e : JsString) (err : JsError)
    (h : decryptMasterKeychainTry lib p e = Except.error err) :
    decryptMasterKeychain lib p e = Except.error (JsError.error "Incorrect password") := by
  simp [decryptMasterKeychain, h]

theorem canWriteUrl_some_iff (u f : JsString) (c : GaiaHubConfig) :
    canWriteUrl u c = some f ↔ readPrefixOf c ++ f = u := by
  unfold canWriteUrl
  constructor
  · intro h
    split at h
    · next hp =>
      obtain ⟨t, ht⟩ := List.isPrefixOf_iff_prefix.mp hp
      subst ht
      simp at h
      rw [h]
    · cases h
  · intro h
    subst h
    have hp : (readPrefixOf c).isPrefixOf (readPrefixOf c ++ f) = true :=
      List.isPrefixOf_iff_prefix.mpr ⟨f, rfl⟩
    simp [hp]

theorem canWriteUrl_none_iff (u : JsString) (c : GaiaHubConfig) :
    canWriteUrl u c = none ↔ (readPrefixOf c).isPrefixOf u = false := by
  unfold canWriteUrl
  cases h : (readPrefixOf c).isPrefixOf u <;> simp

/-- The outcome of `uploadProfile` once the identity hub configuration and the
target URL are known. -/
theorem uploadProfile_eq (lib : HubLib) (api : Api) (identity : Identity) (key data : JsString)
    (I : GaiaHubConfig) (u : JsString)
    (hI : lib.connectToGaiaHub api.gaiaHubUrl key = Except.ok I)
    (hu : getProfileUploadLocation lib identity I = Except.ok u) :
    uploadProfile lib api identity key data
      = match canWriteUrl u I with
        | some f => Except.ok (GaiaUpload.mk f data I (some (js "application/json")))
        | none =>
          match canWriteUrl u api.gaiaHubConfig with
          | some f =>
            Except.ok (GaiaUpload.mk f data api.gaiaHubConfig (some (js "application/json")))
          | none => Except.error (unknownUploadTarget u) := by
  simp only [uploadProfile, hI, bind, Except.bind, hu, tryUpload]
  cases canWriteUrl u I with
  | some f => rfl
  | none =>
    cases canWriteUrl u api.gaiaHubConfig with
    | some f => rfl
    | none => rfl

/-! ## Completeness and seed groups: shared facts -/

/-- The part of the trust level that counts for the completeness: 1 when some
verification is valid, 0 otherwise. -/
theorem trustLevel_min_one (v : Option (List Verification)) :
    min (calculateTrustLevel v) 1 = if (v.getD []).any (fun x => x.valid) = true then 1 else 0 := by
  cases v with
  | none => rfl
  | some l =>
    rw [calculateTrustLevel_eq]
    have h99 : MAX_TRUST_LEVEL = 99 := rfl
    have hpos : 0 < l.countP (fun x => x.valid) ↔ l.any (fun x => x.valid) = true := by
      rw [List.countP_pos_iff, List.any_eq_true]
    simp only [Option.getD_some]
    by_cases h : l.any (fun x => x.valid) = true
    · rw [if_pos h]
      have := hpos.mpr h
      omega
    · rw [if_neg h]
      have : ¬ 0 < l.countP (fun x => x.valid) := fun hc => h (hpos.mp hc)
      omega

theorem calculateProfileCompleteness_eq (profile : Profile) (v : Option (List Verification)) :
    calculateProfileCompleteness profile v
      = (((if 0 < (profile.name.getD []).length then 1 else 0)
          + (if (v.getD []).any (fun x => x.valid) = true then 1 else 0) : Nat) : ℚ) / 2 := by
  unfold calculateProfileCompleteness
  simp only [trustLevel_min_one]
  cases hn : profile.name with
  | none => simp
  | some n => simp

theorem splitOnSpace_ne_nil (s : JsString) : splitOnSpace s ≠ [] := by
  cases s with
  | nil => simp [splitOnSpace]
  | cons c rest =>
    unfold splitOnSpace
    split
    · simp
    · split <;> simp

theorem seedWords_take_getElem (x y : List JsString) (h : x.take 12 = y.take 12) (i : Nat)
    (hi : i < 12) : x[i]? = y[i]? := by
  have h1 : (x.take 12)[i]? = x[i]? := by rw [List.getElem?_take, if_pos hi]
  have h2 : (y.take 12)[i]? = y[i]? := by rw [List.getElem?_take, if_pos hi]
  rw [← h1, ← h2, h]

theorem splitOnSpace_no_space (s : JsString) :
    ∀ w ∈ splitOnSpace s, (32 : Fin 65536) ∉ w := by
  induction s with
  | nil => intro w hw; simp [splitOnSpace] at hw; subst hw; simp
  | cons c rest ih =>
    intro w hw
    unfold splitOnSpace at hw
    split at hw
    · rcases List.mem_cons.mp hw with h | h
      · subst h; simp
      · exact ih w h
    · next hc =>
      split at hw
      · next word words hsplit =>
        rcases List.mem_cons.mp hw with h | h
        · subst h
          have hword := ih word (by rw [hsplit]; exact List.mem_cons_self _ _)
          intro hmem
          rcases List.mem_cons.mp hmem with h2 | h2
          · exact hc h2.symm
          · exact hword h2
        · exact ih w (by rw [hsplit]; exact List.mem_cons_of_mem _ h)
      · next hsplit => exact absurd hsplit (splitOnSpace_ne_nil rest)

/-- Joining the pieces of a string with spaces gives the string back. -/
theorem joinWithSpace_splitOnSpace (s : JsString) : joinWithSpace (splitOnSpace s) = s := by
  induction s with
  | nil => rfl
  | cons c rest ih =>
    unfold splitOnSpace
    split
    · next hc =>
      cases hsplit : splitOnSpace rest with
      | nil => exact absurd hsplit (splitOnSpace_ne_nil rest)
      | cons w ws =>
        rw [hsplit] at ih
        rw [joinWithSpace, ih, hc]
        rfl
    · cases hsplit : splitOnSpace rest with
      | nil => exact absurd hsplit (splitOnSpace_ne_nil rest)
      | cons w ws =>
        rw [hsplit] at ih
        simp only
        cases ws with
        | nil =>
          simp only [joinWithSpace] at ih ⊢
          rw [ih]
        | cons w2 ws2 =>
          simp only [joinWithSpace] at ih ⊢
          rw [← ih]
          rfl

/-! ## The claims -/

/-- C1: for every string, `hashCode`, computed with 32-bit wrapping at each step
and one mask with `0x7fffffff` at the end, equals the fold of the specification
`h := (h * 31 + c) & 0x7fffffff` seeded at 0, which is the polynomial
`∑ c_i * 31^(n-1-i)` of the code units modulo `2^31`. -/
theorem hashCode_refines_specFold (s : JsString) :
    hashCode s = (specFold 0 s : Int) ∧ specFold 0 s = polyValue s % 2147483648 := by
  refine ⟨hashCode_eq_fold s, ?_⟩
  have h1 := specFold_mod_poly s 0
  have h2 := specFold_lt s 0 (by norm_num)
  rw [Nat.mod_eq_of_lt h2] at h1
  simpa using h1

/-- C2: for every apps node with key node `n` and salt `t` and every domain `d`,
`getAppNode(d)` is the outcome of `n.deriveHardened(hashCode(H))`, with `H` the
hexadecimal SHA-256 digest of the string `d` followed by `t`, wrapped into an
`AppNode` whose `appDomain` is `d`; when `n` holds its private key that child
exists and `getAppNode(d)` returns it. -/
theorem getAppNode_hardened_child (lib : Lib Node) (a : AppsNode Node) (d : JsString) :
    a.getAppNode lib d
        = (lib.deriveHardened a.hdNode (hashCode (lib.sha256Hex (d ++ a.salt)))).map
            (fun c => AppNode.mk c d)
      ∧ (lib.Lawful → lib.isNeutered a.hdNode = false →
          ∃ c, lib.deriveHardened a.hdNode (hashCode (lib.sha256Hex (d ++ a.salt))) = Except.ok c
            ∧ a.getAppNode lib d = Except.ok (AppNode.mk c d)
            ∧ (AppNode.mk c d).hdNode = c ∧ (AppNode.mk c d).appDomain = d) := by
  have heq := getAppNode_eq lib a d
  refine ⟨heq, ?_⟩
  intro hl hn
  obtain ⟨c, hc, _⟩ := hl.hardened_of_private a.hdNode _ hn
    (hashCode_uint31 (lib.sha256Hex (d ++ a.salt)))
  refine ⟨c, hc, ?_, rfl, rfl⟩
  rw [heq]
  show Except.map _ (lib.deriveHardened a.hdNode (hashCode (lib.sha256Hex (d ++ a.salt)))) = _
  rw [hc]
  rfl

/-- C2, on the symbolic key tree: the app node of the domain `a.b` under the
apps node at the hardened path 0 with salt `s`. -/
theorem getAppNode_hardened_child_witness :
    ∃ c, symLib.deriveHardened (SymNode.mk [2147483648] true)
          (hashCode (symLib.sha256Hex (js "a.b" ++ js "s"))) = Except.ok c
      ∧ (AppsNode.mk (SymNode.mk [2147483648] true) (js "s")).getAppNode symLib (js "a.b")
          = Except.ok (AppNode.mk c (js "a.b"))
      ∧ (AppNode.mk c (js "a.b")).hdNode = c
      ∧ (AppNode.mk c (js "a.b")).appDomain = js "a.b" :=
  (getAppNode_hardened_child symLib (AppsNode.mk (SymNode.mk [2147483648] true) (js "s"))
    (js "a.b")).2 symLib_lawful rfl

/-- C3: for every string `hashCode` lies in `[0, 2^31)`, and it is 0 on the empty
string, although the 32-bit accumulator of the loop can be negative; hence the
index that `getAppNode` hands to `deriveHardened` is a valid hardened-child
index. -/
theorem hashCode_range (lib : Lib Node) (a : AppsNode Node) (d : JsString) (s : JsString) :
    (0 ≤ hashCode s ∧ hashCode s < 2147483648)
      ∧ hashCode [] = 0
      ∧ (∃ t : JsString, hashCodeLoop 0 t < 0)
      ∧ ∃ i : Int, UInt31 i
          ∧ a.getAppNode lib d = (lib.deriveHardened a.hdNode i).map (fun c => AppNode.mk c d) := by
  refine ⟨hashCode_uint31 s, rfl, ⟨js "zzzzzz", by decide⟩, a.appIndex lib d, ?_, ?_⟩
  · exact hashCode_uint31 _
  · exact getAppNode_eq lib a d

/-- C4: for every keychain `k` that holds its private key and every valid
index `i`, `getIdentityOwnerAddressNode(k, i)` returns an owner node whose key
node is the hardened child `k.deriveHardened(i)` and whose salt is the
hexadecimal SHA-256 digest of the hexadecimal string of the public key of `k`;
`getSalt()` returns that salt and the apps node of the owner, built on the
hardened child at `APPS_NODE_INDEX`, carries the same salt. -/
theorem getIdentityOwnerAddressNode_spec (lib : Lib Node) (hl : lib.Lawful) (k : Node) (i : Int)
    (hk : lib.isNeutered k = false) (hi : UInt31 i) :
    ∃ n a o, lib.deriveHardened k i = Except.ok n
      ∧ lib.deriveHardened n APPS_NODE_INDEX = Except.ok a
      ∧ getIdentityOwnerAddressNode lib k (some i) = Except.ok o
      ∧ o.getNode = n
      ∧ o.salt = lib.sha256Hex (bufferToHex (lib.publicKey k))
      ∧ o.getSalt = lib.sha256Hex (bufferToHex (lib.publicKey k))
      ∧ o.getAppsNode.getNode = a
      ∧ o.getAppsNode.getSalt = o.getSalt := by
  obtain ⟨n, a, hn, _, ha, _, ho⟩ := ownerNode_exists lib hl k i hk hi
  exact ⟨n, a, _, hn, ha, ho, rfl, rfl, rfl, rfl, rfl⟩

/-- C4, on the symbolic key tree: the owner node at index 3 of the identity
keychain at the hardened path 888, 0. -/
theorem getIdentityOwnerAddressNode_spec_witness :
    ∃ n a o, symLib.deriveHardened symIdentityKeychain 3 = Except.ok n
      ∧ symLib.deriveHardened n APPS_NODE_INDEX = Except.ok a
      ∧ getIdentityOwnerAddressNode symLib symIdentityKeychain (some 3)
          = Except.ok o
      ∧ o.getNode = n
      ∧ o.salt = symLib.sha256Hex
          (bufferToHex (symLib.publicKey symIdentityKeychain))
      ∧ o.getSalt = symLib.sha256Hex
          (bufferToHex (symLib.publicKey symIdentityKeychain))
      ∧ o.getAppsNode.getNode = a
      ∧ o.getAppsNode.getSalt = o.getSalt :=
  getIdentityOwnerAddressNode_spec symLib symLib_lawful
    symIdentityKeychain 3 rfl (by decide)

/-- C5, as stated, fails: on the symbolic key tree the owner nodes at the
distinct indices 0 and 1 of one identity keychain are built on different key
nodes and carry the same salt. -/
theorem salt_per_index_counterexample :
    ∃ o0 o1, getIdentityOwnerAddressNode symLib symIdentityKeychain (some 0) = Except.ok o0
      ∧ getIdentityOwnerAddressNode symLib symIdentityKeychain (some 1) = Except.ok o1
      ∧ (0 : Int) ≠ 1 ∧ o0.getNode ≠ o1.getNode ∧ ¬ (o0.getSalt ≠ o1.getSalt) := by
  refine ⟨_, _, rfl, rfl, by decide, by decide, by decide⟩

/-- C5, amended: the salt belongs to the identity keychain, not to the index.
For every keychain `k` that holds its private key and any two valid indices `i`
and `j`, both owner nodes exist, they carry the same salt, the digest of the
public key of `k`, and so every domain gets the same hardened app index under
both. -/
theorem salt_shared_by_indices (lib : Lib Node) (hl : lib.Lawful) (k : Node) (i j : Int)
    (hk : lib.isNeutered k = false) (hi : UInt31 i) (hj : UInt31 j) :
    ∃ oi oj, getIdentityOwnerAddressNode lib k (some i) = Except.ok oi
      ∧ getIdentityOwnerAddressNode lib k (some j) = Except.ok oj
      ∧ oi.getSalt = lib.sha256Hex (bufferToHex (lib.publicKey k))
      ∧ oj.getSalt = oi.getSalt
      ∧ oj.getAppsNode.getSalt = oi.getAppsNode.getSalt
      ∧ ∀ d : JsString, oj.getAppsNode.appIndex lib d = oi.getAppsNode.appIndex lib d := by
  obtain ⟨_, _, _, _, _, _, hoi⟩ := ownerNode_exists lib hl k i hk hi
  obtain ⟨_, _, _, _, _, _, hoj⟩ := ownerNode_exists lib hl k j hk hj
  exact ⟨_, _, hoi, hoj, rfl, rfl, rfl, fun _ => rfl⟩

/-- C5 amended, on the symbolic key tree: indices 0 and 1 of the identity
keychain. -/
theorem salt_shared_by_indices_witness :
    ∃ oi oj, getIdentityOwnerAddressNode symLib symIdentityKeychain (some 0) = Except.ok oi
      ∧ getIdentityOwnerAddressNode symLib symIdentityKeychain (some 1) = Except.ok oj
      ∧ oi.getSalt = symLib.sha256Hex (bufferToHex (symLib.publicKey symIdentityKeychain))
      ∧ oj.getSalt = oi.getSalt
      ∧ oj.getAppsNode.getSalt = oi.getAppsNode.getSalt
      ∧ ∀ d : JsString, oj.getAppsNode.appIndex symLib d = oi.getAppsNode.appIndex symLib d :=
  salt_shared_by_indices symLib symLib_lawful symIdentityKeychain 0 1 rfl (by decide) (by decide)

/-- C6: for every keychain `k` and valid index `i`,
`getIdentityOwnerAddressNode(k, i)` fails, and then with the error `You need the
private key to generate identity addresses`, if and only if `k` is neutered; the
guard comes before the digest and the derivation, so on a neutered keychain that
error is raised whatever the library would compute. -/
theorem getIdentityOwnerAddressNode_fails_iff (lib : Lib Node) (hl : lib.Lawful) (k : Node)
    (i : Int) (hi : UInt31 i) :
    (getIdentityOwnerAddressNode lib k (some i)
        = Except.error (JsError.error "You need the private key to generate identity addresses")
      ↔ lib.isNeutered k = true)
    ∧ ((∃ e, getIdentityOwnerAddressNode lib k (some i) = Except.error e)
      ↔ lib.isNeutered k = true)
    ∧ ∀ lib2 : Lib Node, lib2.isNeutered k = true →
        getIdentityOwnerAddressNode lib2 k (some i)
          = Except.error
              (JsError.error "You need the private key to generate identity addresses") := by
  have hfail : (∃ e, getIdentityOwnerAddressNode lib k (some i) = Except.error e)
      → lib.isNeutered k = true := by
    rintro ⟨e, he⟩
    cases hk : lib.isNeutered k with
    | true => rfl
    | false =>
      obtain ⟨_, _, _, _, _, _, ho⟩ := ownerNode_exists lib hl k i hk hi
      rw [ho] at he
      cases he
  refine ⟨⟨fun h => hfail ⟨_, h⟩, ownerNode_of_neutered lib k (some i)⟩,
    ⟨hfail, fun h => ⟨_, ownerNode_of_neutered lib k (some i) h⟩⟩,
    fun lib2 h => ownerNode_of_neutered lib2 k (some i) h⟩

/-- C6, on the symbolic key tree: the neutered identity keychain at index 0. -/
theorem getIdentityOwnerAddressNode_fails_iff_witness :
    symLib.isNeutered (symLib.neutered symIdentityKeychain) = true
      ∧ getIdentityOwnerAddressNode symLib (symLib.neutered symIdentityKeychain) (some 0)
          = Except.error
              (JsError.error "You need the private key to generate identity addresses") :=
  ⟨rfl, (getIdentityOwnerAddressNode_fails_iff symLib symLib_lawful
    (symLib.neutered symIdentityKeychain) 0 (by decide)).1.2 rfl⟩

/-- C7: for every identity owner node `o` constructed on the key node `n` with
the salt `t`, with apps node `a = n.deriveHardened(0)`, `deriveIdentityKeyPair(o)`
returns the record of the hexadecimal private key of `n`, the hexadecimal public
key of `n`, the P2PKH address of that public key, the hexadecimal private key of
`a.deriveHardened(0)`, the base58 string of `a`, and `t`. -/
theorem deriveIdentityKeyPair_spec (lib : Lib Node) (hl : lib.Lawful) (n : Node) (t : JsString)
    (o : IdentityAddressOwnerNode Node)
    (ho : IdentityAddressOwnerNode.new lib n t = Except.ok o) :
    ∃ a inter pk spk, lib.deriveHardened n APPS_NODE_INDEX = Except.ok a
      ∧ lib.deriveHardened a PUBLIC_SHARED_APPS_NODE_INDEX = Except.ok inter
      ∧ lib.privateKey n = some pk
      ∧ lib.privateKey inter = some spk
      ∧ o.getNode = n ∧ o.getSalt = t ∧ o.getAppsNode.getNode = a
      ∧ deriveIdentityKeyPair lib o
          = Except.ok (IdentityKeyPair.mk (bufferToHex pk) (bufferToHex (lib.publicKey n))
              (lib.p2pkhAddress (lib.publicKey n)) (bufferToHex spk) (lib.toBase58 a) t) := by
  cases ha : lib.deriveHardened n APPS_NODE_INDEX with
  | error e =>
    simp [IdentityAddressOwnerNode.new, ha] at ho
  | ok a =>
    rw [ownerNode_new_eq lib n a t ha] at ho
    cases ho
    have hn := private_of_hardened_ok lib hl n a _ ha
    obtain ⟨a2, ha2, hap⟩ := hl.hardened_of_private n APPS_NODE_INDEX hn (by decide)
    rw [ha] at ha2
    cases ha2
    obtain ⟨inter, hinter, hip⟩ :=
      hl.hardened_of_private a PUBLIC_SHARED_APPS_NODE_INDEX hap (by decide)
    obtain ⟨pk, hpk⟩ := privateKey_of_private lib hl n hn
    obtain ⟨spk, hspk⟩ := privateKey_of_private lib hl inter hip
    refine ⟨a, inter, pk, spk, rfl, hinter, hpk, hspk, rfl, rfl, rfl, ?_⟩
    simp [deriveIdentityKeyPair, IdentityAddressOwnerNode.getIdentityKey,
      IdentityAddressOwnerNode.getSharedAppsPrivateKey, getSharedAppsPrivateKey,
      IdentityAddressOwnerNode.getAppsNode, IdentityAddressOwnerNode.getAddress,
      IdentityAddressOwnerNode.getIdentityKeyID, AppsNode.toBase58, AppsNode.getSalt,
      getAddressFromBIP32Node, hexOfOptional, hpk, hinter, hspk]
    rfl

/-- C7, on the symbolic key tree: the owner node of identity 0. -/
theorem deriveIdentityKeyPair_spec_witness :
    IdentityAddressOwnerNode.new symLib symOwnerHdNode (js "s") = Except.ok symOwner
      ∧ ∃ a inter pk spk, symLib.deriveHardened symOwnerHdNode APPS_NODE_INDEX = Except.ok a
        ∧ symLib.deriveHardened a PUBLIC_SHARED_APPS_NODE_INDEX = Except.ok inter
        ∧ symLib.privateKey symOwnerHdNode = some pk
        ∧ symLib.privateKey inter = some spk
        ∧ symOwner.getNode = symOwnerHdNode ∧ symOwner.getSalt = js "s"
        ∧ symOwner.getAppsNode.getNode = a
        ∧ deriveIdentityKeyPair symLib symOwner
            = Except.ok (IdentityKeyPair.mk (bufferToHex pk)
                (bufferToHex (symLib.publicKey symOwnerHdNode))
                (symLib.p2pkhAddress (symLib.publicKey symOwnerHdNode)) (bufferToHex spk)
                (symLib.toBase58 a) (js "s")) :=
  ⟨rfl, deriveIdentityKeyPair_spec symLib symLib_lawful symOwnerHdNode (js "s") symOwner rfl⟩

/-- C8: whenever `getBlockchainIdentities(m, n)` returns, for every `i < n` the
entry `identityKeypairs[i]` is
`deriveIdentityKeyPair(getIdentityOwnerAddressNode(getIdentityPrivateKeychain(m), i))`
and `identityAddresses[i]` is the address of `identityKeypairs[i]`. -/
theorem getBlockchainIdentities_positional (lib : Lib Node) (m : Node) (n : Nat)
    (r : BlockchainIdentities) (h : getBlockchainIdentities lib m n = Except.ok r)
    (i : Nat) (hi : i < n) :
    ∃ k o kp, getIdentityPrivateKeychain lib m = Except.ok k
      ∧ getIdentityOwnerAddressNode lib k (some (i : Int)) = Except.ok o
      ∧ deriveIdentityKeyPair lib o = Except.ok kp
      ∧ r.identityKeypairs[i]? = some kp
      ∧ r.identityAddresses[i]? = some kp.address := by
  obtain ⟨k, hk, _, haddr, hall⟩ := getBlockchainIdentities_ok lib m n r h
  obtain ⟨o, kp, h1, h2, h3⟩ := hall i hi
  refine ⟨k, o, kp, hk, h2, h3, h1, ?_⟩
  rw [haddr, List.getElem?_map, h1]
  rfl

/-- C8, on the symbolic key tree: two identities, position 1. -/
theorem getBlockchainIdentities_positional_witness :
    getBlockchainIdentities symLib symMaster 2 = Except.ok symIdentities ∧ 1 < 2
      ∧ ∃ k o kp, getIdentityPrivateKeychain symLib symMaster = Except.ok k
        ∧ getIdentityOwnerAddressNode symLib k (some ((1 : Nat) : Int)) = Except.ok o
        ∧ deriveIdentityKeyPair symLib o = Except.ok kp
        ∧ symIdentities.identityKeypairs[1]? = some kp
        ∧ symIdentities.identityAddresses[1]? = some kp.address :=
  ⟨rfl, by decide,
    getBlockchainIdentities_positional symLib symMaster 2 symIdentities rfl 1 (by decide)⟩

/-- C9: `getBlockchainIdentities(m, n)` either fails as a whole or returns a
record whose `identityAddresses` and `identityKeypairs` both have length `n`;
and when the key pair of some index below `n` cannot be derived, the whole call
fails. -/
theorem getBlockchainIdentities_all_or_nothing (lib : Lib Node) (m : Node) (n : Nat) :
    ((∃ e, getBlockchainIdentities lib m n = Except.error e)
      ∨ ∃ r, getBlockchainIdentities lib m n = Except.ok r
          ∧ r.identityAddresses.length = n ∧ r.identityKeypairs.length = n)
    ∧ ∀ k, getIdentityPrivateKeychain lib m = Except.ok k → ∀ i, i < n →
        (∀ o kp, getIdentityOwnerAddressNode lib k (some (i : Int)) = Except.ok o →
          deriveIdentityKeyPair lib o ≠ Except.ok kp) →
        ∃ e, getBlockchainIdentities lib m n = Except.error e := by
  constructor
  · cases h : getBlockchainIdentities lib m n with
    | error e => exact Or.inl ⟨e, rfl⟩
    | ok r =>
      obtain ⟨_, _, hlen, haddr, _⟩ := getBlockchainIdentities_ok lib m n r h
      exact Or.inr ⟨r, rfl, by rw [haddr, List.length_map, hlen], hlen⟩
  · intro k hk i hi hfail
    cases h : getBlockchainIdentities lib m n with
    | error e => exact ⟨e, rfl⟩
    | ok r =>
      obtain ⟨k2, hk2, _, _, hall⟩ := getBlockchainIdentities_ok lib m n r h
      rw [hk] at hk2
      cases hk2
      obtain ⟨o, kp, _, h2, h3⟩ := hall i hi
      exact absurd h3 (hfail o kp h2)

/-- C9, on the symbolic key tree: from the master node two identities are
generated, and from the neutered master node the call fails. -/
theorem getBlockchainIdentities_all_or_nothing_witness :
    (∃ r, getBlockchainIdentities symLib symMaster 2 = Except.ok r
        ∧ r.identityAddresses.length = 2 ∧ r.identityKeypairs.length = 2)
      ∧ ∃ e, getBlockchainIdentities symLib (symLib.neutered symMaster) 2 = Except.error e := by
  constructor
  · rcases (getBlockchainIdentities_all_or_nothing symLib symMaster 2).1 with ⟨e, he⟩ | h
    · rw [show getBlockchainIdentities symLib symMaster 2 = Except.ok symIdentities from rfl] at he
      cases he
    · exact h
  · exact ⟨_, rfl⟩

/-- C10: for every password `p`, `isPasswordValid(p).isValid` is true if and only
if the length of `p` is at least 8. -/
theorem isPasswordValid_isValid_iff (p : JsString) :
    (isPasswordValid p).isValid = true ↔ 8 ≤ p.length := by
  unfold isPasswordValid
  split
  · next h => exact ⟨fun _ => h, fun _ => rfl⟩
  · next h => exact ⟨fun hv => absurd hv (by simp), fun hl => absurd hl h⟩

/-- C11: the error field of `isPasswordValid` is the wrong way round. On the
three-character password `abc` the code reports no error, and on the
eight-character password `12345678`, which it accepts, it reports `Password must
be at least 8 characters`; for every password the error is set exactly when the
length is at least 8. -/
theorem isPasswordValid_error_inverted :
    isPasswordValid (js "abc") = PasswordValidity.mk false none
      ∧ isPasswordValid (js "12345678")
          = PasswordValidity.mk true (some "Password must be at least 8 characters")
      ∧ ∀ p : JsString, ((isPasswordValid p).error ≠ none ↔ 8 ≤ p.length) := by
  refine ⟨by decide, by decide, ?_⟩
  intro p
  unfold isPasswordValid
  split
  · next h => simp [h]
  · next h => simp [h]

/-- C12: `findAddressIndex(a, L)` returns `i` exactly when `L[i] = a` and no
earlier position holds `a`; it returns `null` exactly when `a` does not occur in
`L`; a returned index is within the bounds of `L`; and on the two lists of the
tests it returns 1 and `null`. -/
theorem findAddressIndex_first_match (a : JsString) (L : List JsString) :
    (∀ i, findAddressIndex a L = some i ↔ (L[i]? = some a ∧ ∀ j, j < i → L[j]? ≠ some a))
      ∧ (findAddressIndex a L = none ↔ a ∉ L)
      ∧ (∀ i, findAddressIndex a L = some i → i < L.length)
      ∧ (a ∈ L → ∃ i, findAddressIndex a L = some i)
      ∧ findAddressIndex (js "155fzsEBHy9Ri2bMQ8uuuR3tv1YzcDywd4")
          [js "1rfWPdz4YvtnKqCuTcd5pqjemmk34HqnU", js "155fzsEBHy9Ri2bMQ8uuuR3tv1YzcDywd4"]
          = some 1
      ∧ findAddressIndex (js "1uVWPykNnn3r6gupWFBLxC1rHYh7MmsT7")
          [js "1rfWPdz4YvtnKqCuTcd5pqjemmk34HqnU", js "155fzsEBHy9Ri2bMQ8uuuR3tv1YzcDywd4"]
          = none := by
  have hsome : ∀ i, findAddressIndex a L = some i →
      (L[i]? = some a ∧ ∀ j, j < i → L[j]? ≠ some a) := by
    intro i h
    obtain ⟨j, hr, hj, hmin⟩ := findAddressIndexLoop_some a L 0 i h
    have : i = j := by omega
    subst this
    exact ⟨hj, hmin⟩
  have hnone : findAddressIndex a L = none ↔ a ∉ L := findAddressIndexLoop_none a L 0
  have hmem : a ∈ L → ∃ i, findAddressIndex a L = some i := by
    intro ha
    cases h : findAddressIndex a L with
    | none => exact absurd ha (hnone.mp h)
    | some i => exact ⟨i, rfl⟩
  refine ⟨?_, hnone, ?_, hmem, by decide, by decide⟩
  · intro i
    refine ⟨hsome i, ?_⟩
    rintro ⟨hi, hmin⟩
    obtain ⟨r, hr⟩ := hmem (List.getElem?_mem hi)
    obtain ⟨hr1, hr2⟩ := hsome r hr
    have h1 : ¬ r < i := fun h => hmin r h hr1
    have h2 : ¬ i < r := fun h => hr2 i h hi
    have : r = i := by omega
    rw [hr, this]
  · intro i h
    have := (hsome i h).1
    exact (List.getElem?_eq_some_iff.mp this).1

/-- C20: `calculateTrustLevel(v)` is the number of entries with a truthy `valid`,
capped at `MAX_TRUST_LEVEL = 99`; it is 0 for `null`, `undefined` and the empty
list, never exceeds 99, and does not decrease when a verification is appended. -/
theorem calculateTrustLevel_spec (v : List Verification) (x : Verification) :
    calculateTrustLevel (some v) = min (v.countP (fun e => e.valid)) MAX_TRUST_LEVEL
      ∧ MAX_TRUST_LEVEL = 99
      ∧ calculateTrustLevel none = 0
      ∧ calculateTrustLevel (some []) = 0
      ∧ calculateTrustLevel (some v) ≤ 99
      ∧ calculateTrustLevel (some v) ≤ calculateTrustLevel (some (v ++ [x])) := by
  refine ⟨calculateTrustLevel_eq v, rfl, rfl, rfl, ?_, ?_⟩
  · rw [calculateTrustLevel_eq]
    exact Nat.min_le_right _ _
  · rw [calculateTrustLevel_eq, calculateTrustLevel_eq, List.countP_append]
    have h99 : MAX_TRUST_LEVEL = 99 := rfl
    omega

/-- C13: for every keychain `k`, valid address index `i` and chain type `c`,
`getBitcoinAddressNode(k, i, c)` fails, and then with `Invalid chain type`, if
and only if `c` is neither `EXTERNAL_ADDRESS` nor `CHANGE_ADDRESS`; the chain
type is checked before any derivation, so with such a `c` that error is raised
whatever the library would compute. -/
theorem getBitcoinAddressNode_fails_iff (lib : Lib Node) (hd : lib.NonHardenedTotal) (k : Node)
    (i : Int) (hi : UInt31 i) (c : JsString) :
    (getBitcoinAddressNode lib k (some i) (some c)
        = Except.error (JsError.error "Invalid chain type")
      ↔ (c ≠ EXTERNAL_ADDRESS ∧ c ≠ CHANGE_ADDRESS))
    ∧ ((∃ e, getBitcoinAddressNode lib k (some i) (some c) = Except.error e)
      ↔ (c ≠ EXTERNAL_ADDRESS ∧ c ≠ CHANGE_ADDRESS))
    ∧ ∀ (lib2 : Lib Node) (i2 : Option Int), c ≠ EXTERNAL_ADDRESS → c ≠ CHANGE_ADDRESS →
        getBitcoinAddressNode lib2 k i2 (some c)
          = Except.error (JsError.error "Invalid chain type") := by
  have hfail : (∃ e, getBitcoinAddressNode lib k (some i) (some c) = Except.error e)
      → (c ≠ EXTERNAL_ADDRESS ∧ c ≠ CHANGE_ADDRESS) := by
    rintro ⟨e, he⟩
    refine ⟨?_, ?_⟩
    · intro hc
      subst hc
      obtain ⟨_, _, _, _, hok⟩ := derive_two_ok lib hd k 0 i (by decide) hi
      rw [getBitcoinAddressNode_external, Option.getD_some, hok] at he
      cases he
    · intro hc
      subst hc
      obtain ⟨_, _, _, _, hok⟩ := derive_two_ok lib hd k 1 i (by decide) hi
      rw [getBitcoinAddressNode_change, Option.getD_some, hok] at he
      cases he
  refine ⟨⟨fun h => hfail ⟨_, h⟩, fun h => getBitcoinAddressNode_invalid lib k _ c h.1 h.2⟩,
    ⟨hfail, fun h => ⟨_, getBitcoinAddressNode_invalid lib k _ c h.1 h.2⟩⟩,
    fun lib2 i2 h0 h1 => getBitcoinAddressNode_invalid lib2 k i2 c h0 h1⟩

/-- C13, on the symbolic key tree: the chain type `INTERNAL` at index 5. -/
theorem getBitcoinAddressNode_fails_iff_witness :
    (js "INTERNAL" ≠ EXTERNAL_ADDRESS ∧ js "INTERNAL" ≠ CHANGE_ADDRESS)
      ∧ getBitcoinAddressNode symLib symMaster (some 5) (some (js "INTERNAL"))
          = Except.error (JsError.error "Invalid chain type") :=
  ⟨⟨by decide, by decide⟩,
    (getBitcoinAddressNode_fails_iff symLib symLib_nonHardenedTotal symMaster 5 (by decide)
      (js "INTERNAL")).1.2 ⟨by decide, by decide⟩⟩

/-- C14: `getBitcoinAddressNode(k, i, EXTERNAL_ADDRESS)` is `k.derive(0).derive(i)`
and `getBitcoinAddressNode(k, i, CHANGE_ADDRESS)` is `k.derive(1).derive(i)`, both
steps by the derivation that is not hardened; with the arguments omitted the
index is 0 and the chain is the external one; and for a valid index both calls
return, on a neutered keychain too. -/
theorem getBitcoinAddressNode_paths (lib : Lib Node) (k : Node) (i : Int) :
    getBitcoinAddressNode lib k (some i) (some EXTERNAL_ADDRESS)
        = (lib.derive k 0 >>= fun n => lib.derive n i)
      ∧ getBitcoinAddressNode lib k (some i) (some CHANGE_ADDRESS)
        = (lib.derive k 1 >>= fun n => lib.derive n i)
      ∧ getBitcoinAddressNode lib k none none = (lib.derive k 0 >>= fun n => lib.derive n 0)
      ∧ getBitcoinAddressNode lib k (some i) none
        = getBitcoinAddressNode lib k (some i) (some EXTERNAL_ADDRESS)
      ∧ (lib.NonHardenedTotal → UInt31 i →
          ∃ e0 e c0 c, lib.derive k 0 = Except.ok e0 ∧ lib.derive e0 i = Except.ok e
            ∧ getBitcoinAddressNode lib k (some i) (some EXTERNAL_ADDRESS) = Except.ok e
            ∧ lib.derive k 1 = Except.ok c0 ∧ lib.derive c0 i = Except.ok c
            ∧ getBitcoinAddressNode lib k (some i) (some CHANGE_ADDRESS) = Except.ok c) := by
  refine ⟨getBitcoinAddressNode_external lib k (some i),
    getBitcoinAddressNode_change lib k (some i), ?_, ?_, ?_⟩
  · simp [getBitcoinAddressNode]
  · simp [getBitcoinAddressNode]
  · intro hd hi
    obtain ⟨e0, e, h1, h2, h3⟩ := derive_two_ok lib hd k 0 i (by decide) hi
    obtain ⟨c0, c, h4, h5, h6⟩ := derive_two_ok lib hd k 1 i (by decide) hi
    refine ⟨e0, e, c0, c, h1, h2, ?_, h4, h5, ?_⟩
    · rw [getBitcoinAddressNode_external]; exact h3
    · rw [getBitcoinAddressNode_change]; exact h6

/-- C14, on the symbolic key tree: the neutered master node at index 7. -/
theorem getBitcoinAddressNode_paths_witness :
    symLib.isNeutered (symLib.neutered symMaster) = true
      ∧ ∃ e0 e c0 c, symLib.derive (symLib.neutered symMaster) 0 = Except.ok e0
        ∧ symLib.derive e0 7 = Except.ok e
        ∧ getBitcoinAddressNode symLib (symLib.neutered symMaster) (some 7)
            (some EXTERNAL_ADDRESS) = Except.ok e
        ∧ symLib.derive (symLib.neutered symMaster) 1 = Except.ok c0
        ∧ symLib.derive c0 7 = Except.ok c
        ∧ getBitcoinAddressNode symLib (symLib.neutered symMaster) (some 7)
            (some CHANGE_ADDRESS) = Except.ok c :=
  ⟨rfl, (getBitcoinAddressNode_paths symLib (symLib.neutered symMaster) 7).2.2.2.2
    symLib_nonHardenedTotal (by decide)⟩

/-- C15: the master-level keychains follow the path table:
`getBitcoinPrivateKeychain(m)` is
`m.deriveHardened(44).deriveHardened(0).deriveHardened(0)`,
`getIdentityPrivateKeychain(m)` is `m.deriveHardened(888).deriveHardened(0)`, the
two public keychains are the neutered forms of those nodes, and from a master
node that holds its private key all four are returned. -/
theorem master_keychain_paths (lib : Lib Node) (m : Node) :
    getBitcoinPrivateKeychain lib m
        = (lib.deriveHardened m 44 >>= fun p => lib.deriveHardened p 0 >>= fun c =>
            lib.deriveHardened c 0)
      ∧ getIdentityPrivateKeychain lib m
        = (lib.deriveHardened m 888 >>= fun p => lib.deriveHardened p 0)
      ∧ getBitcoinPublicKeychain lib m = (getBitcoinPrivateKeychain lib m).map lib.neutered
      ∧ getIdentityPublicKeychain lib m = (getIdentityPrivateKeychain lib m).map lib.neutered
      ∧ (lib.Lawful → lib.isNeutered m = false →
          ∃ p c b q d, lib.deriveHardened m 44 = Except.ok p
            ∧ lib.deriveHardened p 0 = Except.ok c
            ∧ lib.deriveHardened c 0 = Except.ok b
            ∧ getBitcoinPrivateKeychain lib m = Except.ok b
            ∧ getBitcoinPublicKeychain lib m = Except.ok (lib.neutered b)
            ∧ lib.deriveHardened m 888 = Except.ok q
            ∧ lib.deriveHardened q 0 = Except.ok d
            ∧ getIdentityPrivateKeychain lib m = Except.ok d
            ∧ getIdentityPublicKeychain lib m = Except.ok (lib.neutered d)) := by
  have hb : getBitcoinPrivateKeychain lib m
      = (lib.deriveHardened m 44 >>= fun p => lib.deriveHardened p 0 >>= fun c =>
          lib.deriveHardened c 0) := rfl
  have hi : getIdentityPrivateKeychain lib m
      = (lib.deriveHardened m 888 >>= fun p => lib.deriveHardened p 0) := rfl
  have hbp : getBitcoinPublicKeychain lib m
      = (getBitcoinPrivateKeychain lib m).map lib.neutered := by
    unfold getBitcoinPublicKeychain
    cases getBitcoinPrivateKeychain lib m <;> rfl
  have hip : getIdentityPublicKeychain lib m
      = (getIdentityPrivateKeychain lib m).map lib.neutered := by
    unfold getIdentityPublicKeychain
    cases getIdentityPrivateKeychain lib m <;> rfl
  refine ⟨hb, hi, hbp, hip, ?_⟩
  intro hl hm
  obtain ⟨p, hp, hpp⟩ := hl.hardened_of_private m 44 hm (by decide)
  obtain ⟨c, b, hc, hbb, _, _⟩ := hardened_chain_two lib hl p 0 0 hpp (by decide) (by decide)
  obtain ⟨q, d, hq, hd, _, hqd⟩ := hardened_chain_two lib hl m 888 0 hm (by decide) (by decide)
  have hbok : getBitcoinPrivateKeychain lib m = Except.ok b := by
    rw [hb, hp]
    show (lib.deriveHardened p 0 >>= fun c => lib.deriveHardened c 0) = _
    rw [hc]
    exact hbb
  have hiok : getIdentityPrivateKeychain lib m = Except.ok d := by
    rw [hi]; exact hqd
  refine ⟨p, c, b, q, d, hp, hc, hbb, hbok, ?_, hq, hd, hiok, ?_⟩
  · rw [hbp, hbok]; rfl
  · rw [hip, hiok]; rfl

/-- C15, on the symbolic key tree: the master node. -/
theorem master_keychain_paths_witness :
    ∃ p c b q d, symLib.deriveHardened symMaster 44 = Except.ok p
      ∧ symLib.deriveHardened p 0 = Except.ok c
      ∧ symLib.deriveHardened c 0 = Except.ok b
      ∧ getBitcoinPrivateKeychain symLib symMaster = Except.ok b
      ∧ getBitcoinPublicKeychain symLib symMaster = Except.ok (symLib.neutered b)
      ∧ symLib.deriveHardened symMaster 888 = Except.ok q
      ∧ symLib.deriveHardened q 0 = Except.ok d
      ∧ getIdentityPrivateKeychain symLib symMaster = Except.ok d
      ∧ getIdentityPublicKeychain symLib symMaster = Except.ok (symLib.neutered d) :=
  (master_keychain_paths symLib symMaster).2.2.2.2 symLib_lawful rfl

/-- C16: for every identity owner node constructed on the key node `n`, the
three sub-nodes are the hardened children of `n` at the three distinct indices
of the table: `getAppsNode()` wraps `n.deriveHardened(0)`, `getSigningNode()` is
`n.deriveHardened(1)` and `getEncryptionNode()` is `n.deriveHardened(2)`. -/
theorem owner_subnodes (lib : Lib Node) (hl : lib.Lawful) (n : Node) (t : JsString)
    (o : IdentityAddressOwnerNode Node)
    (ho : IdentityAddressOwnerNode.new lib n t = Except.ok o) :
    (APPS_NODE_INDEX = 0 ∧ SIGNING_NODE_INDEX = 1 ∧ ENCRYPTION_NODE_INDEX = 2)
      ∧ ∃ a s e, lib.deriveHardened n 0 = Except.ok a
        ∧ lib.deriveHardened n 1 = Except.ok s
        ∧ lib.deriveHardened n 2 = Except.ok e
        ∧ o.getAppsNode.getNode = a
        ∧ o.getSigningNode lib = Except.ok s
        ∧ o.getEncryptionNode lib = Except.ok e := by
  refine ⟨⟨rfl, rfl, rfl⟩, ?_⟩
  cases ha : lib.deriveHardened n APPS_NODE_INDEX with
  | error err =>
    simp [IdentityAddressOwnerNode.new, ha] at ho
  | ok a =>
    rw [ownerNode_new_eq lib n a t ha] at ho
    cases ho
    have hn := private_of_hardened_ok lib hl n a _ ha
    obtain ⟨s, hs, _⟩ := hl.hardened_of_private n 1 hn (by decide)
    obtain ⟨e, he, _⟩ := hl.hardened_of_private n 2 hn (by decide)
    exact ⟨a, s, e, ha, hs, he, rfl, hs, he⟩

/-- C16, on the symbolic key tree: the owner node of identity 0. -/
theorem owner_subnodes_witness :
    IdentityAddressOwnerNode.new symLib symOwnerHdNode (js "s") = Except.ok symOwner
      ∧ ∃ a s e, symLib.deriveHardened symOwnerHdNode 0 = Except.ok a
        ∧ symLib.deriveHardened symOwnerHdNode 1 = Except.ok s
        ∧ symLib.deriveHardened symOwnerHdNode 2 = Except.ok e
        ∧ symOwner.getAppsNode.getNode = a
        ∧ symOwner.getSigningNode symLib = Except.ok s
        ∧ symOwner.getEncryptionNode symLib = Except.ok e :=
  ⟨rfl, (owner_subnodes symLib symLib_lawful symOwnerHdNode (js "s") symOwner rfl).2⟩

/-- C17: whichever step of `decryptMasterKeychain` fails, the decryption, the
loading of `bip39`, the step from the phrase to the seed or the step from the
seed to the keychain, the call fails with the error `Incorrect password`; it
raises no other error, and it returns a keychain only when every step has
succeeded. -/
theorem decryptMasterKeychain_generic_error (lib : SeedLib Node) (p e : JsString) :
    (∀ err, decryptMasterKeychain lib p e = Except.error err →
        err = JsError.error "Incorrect password")
      ∧ (∀ err, lib.codec.decrypt (bufferFromHex e) p = Except.error err →
          decryptMasterKeychain lib p e = Except.error (JsError.error "Incorrect password"))
      ∧ (∀ plaintext err, lib.codec.decrypt (bufferFromHex e) p = Except.ok plaintext →
          lib.bip39Import = Except.error err →
          decryptMasterKeychain lib p e = Except.error (JsError.error "Incorrect password"))
      ∧ (∀ plaintext bip39 err, lib.codec.decrypt (bufferFromHex e) p = Except.ok plaintext →
          lib.bip39Import = Except.ok bip39 →
          bip39.mnemonicToSeed (lib.utf8Decode plaintext) = Except.error err →
          decryptMasterKeychain lib p e = Except.error (JsError.error "Incorrect password"))
      ∧ (∀ plaintext bip39 seed err, lib.codec.decrypt (bufferFromHex e) p = Except.ok plaintext →
          lib.bip39Import = Except.ok bip39 →
          bip39.mnemonicToSeed (lib.utf8Decode plaintext) = Except.ok seed →
          lib.fromSeed seed = Except.error err →
          decryptMasterKeychain lib p e = Except.error (JsError.error "Incorrect password"))
      ∧ (∀ kc, decryptMasterKeychain lib p e = Except.ok kc ↔
          ∃ plaintext bip39 seed, lib.codec.decrypt (bufferFromHex e) p = Except.ok plaintext
            ∧ lib.bip39Import = Except.ok bip39
            ∧ bip39.mnemonicToSeed (lib.utf8Decode plaintext) = Except.ok seed
            ∧ lib.fromSeed seed = Except.ok kc) := by
  have hdec : ∀ err, lib.codec.decrypt (bufferFromHex e) p = Except.error err →
      decryptMasterKeychainTry lib p e = Except.error err := by
    intro err h
    simp only [decryptMasterKeychainTry, h]
    rfl
  have himp : ∀ plaintext err, lib.codec.decrypt (bufferFromHex e) p = Except.ok plaintext →
      lib.bip39Import = Except.error err →
      decryptMasterKeychainTry lib p e = Except.error err := by
    intro plaintext err h1 h2
    simp only [decryptMasterKeychainTry, h1, h2]
    rfl
  have hseed : ∀ plaintext bip39 err,
      lib.codec.decrypt (bufferFromHex e) p = Except.ok plaintext →
      lib.bip39Import = Except.ok bip39 →
      bip39.mnemonicToSeed (lib.utf8Decode plaintext) = Except.error err →
      decryptMasterKeychainTry lib p e = Except.error err := by
    intro plaintext bip39 err h1 h2 h3
    simp only [decryptMasterKeychainTry, h1, h2]
    show (bip39.mnemonicToSeed (lib.utf8Decode plaintext) >>= _) = _
    rw [h3]
    rfl
  refine ⟨?_, ?_, ?_, ?_, ?_, ?_⟩
  · intro err h
    unfold decryptMasterKeychain at h
    split at h
    · cases h
    · cases h; rfl
  · intro err h
    exact decryptMasterKeychain_of_try_error lib p e err (hdec err h)
  · intro plaintext err h1 h2
    exact decryptMasterKeychain_of_try_error lib p e err (himp plaintext err h1 h2)
  · intro plaintext bip39 err h1 h2 h3
    exact decryptMasterKeychain_of_try_error lib p e err (hseed plaintext bip39 err h1 h2 h3)
  · intro plaintext bip39 seed err h1 h2 h3 h4
    have := decryptMasterKeychainTry_steps lib p e plaintext bip39 seed h1 h2 h3
    exact decryptMasterKeychain_of_try_error lib p e err (this.trans h4)
  · intro kc
    constructor
    · intro h
      cases h1 : lib.codec.decrypt (bufferFromHex e) p with
      | error err =>
        rw [decryptMasterKeychain_of_try_error lib p e err (hdec err h1)] at h
        cases h
      | ok plaintext =>
        cases h2 : lib.bip39Import with
        | error err =>
          rw [decryptMasterKeychain_of_try_error lib p e err (himp plaintext err h1 h2)] at h
          cases h
        | ok bip39 =>
          cases h3 : bip39.mnemonicToSeed (lib.utf8Decode plaintext) with
          | error err =>
            rw [decryptMasterKeychain_of_try_error lib p e err
              (hseed plaintext bip39 err h1 h2 h3)] at h
            cases h
          | ok seed =>
            have htry := decryptMasterKeychainTry_steps lib p e plaintext bip39 seed h1 h2 h3
            cases h4 : lib.fromSeed seed with
            | error err =>
              rw [decryptMasterKeychain_of_try_error lib p e err (htry.trans h4)] at h
              cases h
            | ok kc2 =>
              rw [decryptMasterKeychain_of_try_ok lib p e kc2 (htry.trans h4)] at h
              cases h
              exact ⟨plaintext, bip39, seed, rfl, rfl, h3, h4⟩
    · rintro ⟨plaintext, bip39, seed, h1, h2, h3, h4⟩
      have htry := decryptMasterKeychainTry_steps lib p e plaintext bip39 seed h1 h2 h3
      exact decryptMasterKeychain_of_try_ok lib p e kc (htry.trans h4)

/-- C17, on the symbolic codec: a phrase encrypted under `password123` and
decrypted with `badpass`. -/
theorem decryptMasterKeychain_generic_error_witness :
    symSeedLib.codec.decrypt
        (bufferFromHex (bufferToHex
          (symCodec.encrypt (symSeedLib.utf8Encode symPhrase) (js "password123") [7])))
        (js "badpass") = Except.error (JsError.error "Decryption failed")
      ∧ decryptMasterKeychain symSeedLib (js "badpass")
          (bufferToHex (symCodec.encrypt (symSeedLib.utf8Encode symPhrase) (js "password123") [7]))
        = Except.error (JsError.error "Incorrect password") :=
  ⟨rfl, (decryptMasterKeychain_generic_error symSeedLib (js "badpass")
    (bufferToHex (symCodec.encrypt (symSeedLib.utf8Encode symPhrase) (js "password123")
      [7]))).2.1 _ rfl⟩

/-- C18: round trip through the codec. For every password, every random input
of the encryption and every phrase whose bytes are not empty and are read back
as the same string, `decryptMasterKeychain` applied to the hexadecimal string of
the encrypted bytes of the phrase returns the keychain that `bip32.fromSeed`
makes of `mnemonicToSeed(phrase)`; the hexadecimal encoding loses nothing. -/
theorem decryptMasterKeychain_round_trip (lib : SeedLib Node) (phrase p : JsString)
    (random : Buffer) (bip39 : Bip39) (seed : Buffer) (kc : Node)
    (hne : lib.utf8Encode phrase ≠ [])
    (hutf : lib.utf8Decode (lib.utf8Encode phrase) = phrase)
    (hb : lib.bip39Import = Except.ok bip39)
    (hs : bip39.mnemonicToSeed phrase = Except.ok seed)
    (hk : lib.fromSeed seed = Except.ok kc) :
    decryptMasterKeychain lib p
        (bufferToHex (lib.codec.encrypt (lib.utf8Encode phrase) p random)) = Except.ok kc
      ∧ bufferFromHex (bufferToHex (lib.codec.encrypt (lib.utf8Encode phrase) p random))
          = lib.codec.encrypt (lib.utf8Encode phrase) p random
      ∧ lib.codec.decrypt (lib.codec.encrypt (lib.utf8Encode phrase) p random) p
          = Except.ok (lib.utf8Encode phrase) := by
  have hhex := bufferFromHex_bufferToHex (lib.codec.encrypt (lib.utf8Encode phrase) p random)
  have hrt := lib.codec.roundTrip (lib.utf8Encode phrase) p random hne
  refine ⟨?_, hhex, hrt⟩
  apply decryptMasterKeychain_of_try_ok
  have h1 : lib.codec.decrypt
      (bufferFromHex (bufferToHex (lib.codec.encrypt (lib.utf8Encode phrase) p random))) p
      = Except.ok (lib.utf8Encode phrase) := by
    rw [hhex]; exact hrt
  have h3 : bip39.mnemonicToSeed (lib.utf8Decode (lib.utf8Encode phrase)) = Except.ok seed := by
    rw [hutf]; exact hs
  exact (decryptMasterKeychainTry_steps lib p _ _ bip39 seed h1 hb h3).trans hk

/-- C18, on the symbolic codec: the phrase `sound idle panel often` under the
password `password123`. -/
theorem decryptMasterKeychain_round_trip_witness :
    decryptMasterKeychain symSeedLib (js "password123")
        (bufferToHex (symSeedLib.codec.encrypt (symSeedLib.utf8Encode symPhrase)
          (js "password123") [7])) = Except.ok (symSeedLib.utf8Encode symPhrase)
      ∧ bufferFromHex (bufferToHex (symSeedLib.codec.encrypt (symSeedLib.utf8Encode symPhrase)
          (js "password123") [7]))
          = symSeedLib.codec.encrypt (symSeedLib.utf8Encode symPhrase) (js "password123") [7]
      ∧ symSeedLib.codec.decrypt (symSeedLib.codec.encrypt (symSeedLib.utf8Encode symPhrase)
          (js "password123") [7]) (js "password123")
          = Except.ok (symSeedLib.utf8Encode symPhrase) :=
  decryptMasterKeychain_round_trip symSeedLib symPhrase (js "password123") [7]
    symBip39 (symSeedLib.utf8Encode symPhrase) (symSeedLib.utf8Encode symPhrase)
    (by decide) (by decide) rfl rfl rfl

/-- C19: the fallback policy of `uploadProfile`. With the identity hub
configuration `I`, the global one `G` and the target URL `u`, the read prefix of
a configuration being its `url_prefix`, its `address` and a slash: when `u`
starts with the read prefix of `I` the write goes to `I`; otherwise, when `u`
starts with the read prefix of `G`, it goes to `G`; otherwise the call fails and
no write is made. The file name of the write is `u` without the read prefix. -/
theorem uploadProfile_fallback (lib : HubLib) (api : Api) (identity : Identity)
    (key data : JsString) (I : GaiaHubConfig) (u : JsString)
    (hI : lib.connectToGaiaHub api.gaiaHubUrl key = Except.ok I)
    (hu : getProfileUploadLocation lib identity I = Except.ok u) :
    ((readPrefixOf I).isPrefixOf u = true →
        ∃ f, readPrefixOf I ++ f = u
          ∧ uploadProfile lib api identity key data
              = Except.ok (GaiaUpload.mk f data I (some (js "application/json"))))
      ∧ ((readPrefixOf I).isPrefixOf u = false →
          (readPrefixOf api.gaiaHubConfig).isPrefixOf u = true →
          ∃ f, readPrefixOf api.gaiaHubConfig ++ f = u
            ∧ uploadProfile lib api identity key data
                = Except.ok (GaiaUpload.mk f data api.gaiaHubConfig
                    (some (js "application/json"))))
      ∧ ((readPrefixOf I).isPrefixOf u = false →
          (readPrefixOf api.gaiaHubConfig).isPrefixOf u = false →
          uploadProfile lib api identity key data = Except.error (unknownUploadTarget u))
      ∧ ∀ c : GaiaHubConfig,
          readPrefixOf c = GaiaHubConfig.url_prefix c ++ c.address ++ js "/" := by
  have heq := uploadProfile_eq lib api identity key data I u hI hu
  have hsome : ∀ c : GaiaHubConfig, (readPrefixOf c).isPrefixOf u = true →
      ∃ f, canWriteUrl u c = some f ∧ readPrefixOf c ++ f = u := by
    intro c hc
    cases h : canWriteUrl u c with
    | none =>
      rw [(canWriteUrl_none_iff u c).mp h] at hc
      cases hc
    | some f => exact ⟨f, rfl, (canWriteUrl_some_iff u f c).mp h⟩
  refine ⟨?_, ?_, ?_, fun _ => rfl⟩
  · intro h1
    obtain ⟨f, hf, hpre⟩ := hsome I h1
    refine ⟨f, hpre, ?_⟩
    rw [heq, hf]
  · intro h1 h2
    obtain ⟨f, hf, hpre⟩ := hsome api.gaiaHubConfig h2
    refine ⟨f, hpre, ?_⟩
    rw [heq, (canWriteUrl_none_iff u I).mpr h1, hf]
  · intro h1 h2
    rw [heq, (canWriteUrl_none_iff u I).mpr h1,
      (canWriteUrl_none_iff u api.gaiaHubConfig).mpr h2]

/-- C19, on the symbolic hub: the zone file points below the global hub
configuration, not below that of the identity. -/
theorem uploadProfile_fallback_witness :
    ∃ f, readPrefixOf symApi.gaiaHubConfig ++ f = js "https://hub/global/p.json"
      ∧ uploadProfile symHubLib symApi (Identity.mk (some (js "https://hub/global/p.json")))
          (js "k1") (js "data")
          = Except.ok (GaiaUpload.mk f (js "data") symApi.gaiaHubConfig
              (some (js "application/json"))) :=
  (uploadProfile_fallback symHubLib symApi (Identity.mk (some (js "https://hub/global/p.json")))
    (js "k1") (js "data")
    (GaiaHubConfig.mk (js "https://hub/") (js "k1") (js "token") (js "https://hub"))
    (js "https://hub/global/p.json") rfl rfl).2.1 (by decide) (by decide)


/-- C21: `calculateProfileCompleteness(profile, verifications)` is one of 0, 1/2
and 1: it is half the sum of 1 for a non-empty name and 1 for at least one valid
verification, so it is 1 exactly when the profile has a non-empty name and some
verification is valid; the description and the image do not affect it. -/
theorem calculateProfileCompleteness_spec (profile : Profile) (v : Option (List Verification))
    (description image : Option JsString) :
    (calculateProfileCompleteness profile v = 0
        ∨ calculateProfileCompleteness profile v = 1 / 2
        ∨ calculateProfileCompleteness profile v = 1)
      ∧ calculateProfileCompleteness profile v
          = (((if 0 < (profile.name.getD []).length then 1 else 0)
              + (if (v.getD []).any (fun x => x.valid) = true then 1 else 0) : Nat) : ℚ) / 2
      ∧ (calculateProfileCompleteness profile v = 1 ↔
          ((∃ n, profile.name = some n ∧ n ≠ [])
            ∧ ∃ l, v = some l ∧ ∃ x ∈ l, x.valid = true))
      ∧ calculateProfileCompleteness (Profile.mk profile.name description image) v
          = calculateProfileCompleteness profile v := by
  have heq := calculateProfileCompleteness_eq profile v
  have hname : 0 < (profile.name.getD []).length ↔ ∃ n, profile.name = some n ∧ n ≠ [] := by
    cases hn : profile.name with
    | none => simp
    | some n => simp [List.length_pos]
  have hvalid : (v.getD []).any (fun x => x.valid) = true ↔
      ∃ l, v = some l ∧ ∃ x ∈ l, x.valid = true := by
    cases hv : v with
    | none => simp
    | some l => simp [List.any_eq_true]
  refine ⟨?_, heq, ?_, ?_⟩
  · rw [heq]
    by_cases h1 : 0 < (profile.name.getD []).length <;>
      by_cases h2 : (v.getD []).any (fun x => x.valid) = true <;>
      simp [h1, h2]
  · rw [← hname, ← hvalid, heq]
    by_cases h1 : 0 < (profile.name.getD []).length <;>
      by_cases h2 : (v.getD []).any (fun x => x.valid) = true <;>
      simp [h1, h2]
  · rw [calculateProfileCompleteness_eq, heq]

/-- C22: `splitSeed(seed)` returns three groups of four entries each, the pieces
of the seed between spaces at the positions 0 to 3, 4 to 7 and 8 to 11 in order;
the pieces from position 12 on do not enter the result, so of the 24 words of
the backup phrase of the tests only the first 12 are in the groups; for a `null`
or empty seed and for a missing position the entry is `undefined`. -/
theorem splitSeed_groups (seed seed2 : Option JsString) :
    ((splitSeed seed).first.length = 4 ∧ (splitSeed seed).second.length = 4
        ∧ (splitSeed seed).third.length = 4)
      ∧ (∀ i, i < 4 →
          (splitSeed seed).first[i]? = some (seedWords seed)[i]?
            ∧ (splitSeed seed).second[i]? = some (seedWords seed)[i + 4]?
            ∧ (splitSeed seed).third[i]? = some (seedWords seed)[i + 8]?)
      ∧ (splitSeed seed).first ++ (splitSeed seed).second ++ (splitSeed seed).third
          = (List.range 12).map (fun i => (seedWords seed)[i]?)
      ∧ ((seedWords seed2).take 12 = (seedWords seed).take 12 → splitSeed seed2 = splitSeed seed)
      ∧ splitSeed none = SeedGroups.mk [none, none, none, none] [none, none, none, none]
          [none, none, none, none]
      ∧ splitSeed (some []) = SeedGroups.mk [none, none, none, none] [none, none, none, none]
          [none, none, none, none]
      ∧ (∀ i, i < 12 → (seedWords seed).length ≤ i →
          ((splitSeed seed).first ++ (splitSeed seed).second ++ (splitSeed seed).third)[i]?
            = some none)
      ∧ (∀ s : JsString, s ≠ [] →
          seedWords (some s) = splitOnSpace s ∧ joinWithSpace (splitOnSpace s) = s
            ∧ ∀ w ∈ splitOnSpace s, (32 : Fin 65536) ∉ w)
      ∧ (seedWords (some testBackupPhrase)).length = 24
      ∧ splitSeed (some testBackupPhrase) = SeedGroups.mk
          [some (js "sound"), some (js "idle"), some (js "panel"), some (js "often")]
          [some (js "situate"), some (js "develop"), some (js "unit"), some (js "text")]
          [some (js "design"), some (js "antenna"), some (js "vendor"), some (js "screen")] := by
  have hcat : (splitSeed seed).first ++ (splitSeed seed).second ++ (splitSeed seed).third
      = (List.range 12).map (fun i => (seedWords seed)[i]?) := rfl
  refine ⟨⟨rfl, rfl, rfl⟩, ?_, hcat, ?_, rfl, rfl, ?_, ?_, by decide, by decide⟩
  · intro i hi
    have hcases : i = 0 ∨ i = 1 ∨ i = 2 ∨ i = 3 := by omega
    rcases hcases with h | h | h | h <;> subst h <;> exact ⟨rfl, rfl, rfl⟩
  · intro h
    have hget := fun i hi => seedWords_take_getElem (seedWords seed2) (seedWords seed) h i hi
    simp only [splitSeed]
    rw [hget 0 (by omega), hget 1 (by omega), hget 2 (by omega), hget 3 (by omega),
      hget 4 (by omega), hget 5 (by omega), hget 6 (by omega), hget 7 (by omega),
      hget 8 (by omega), hget 9 (by omega), hget 10 (by omega), hget 11 (by omega)]
  · intro i hi hlen
    rw [hcat, List.getElem?_map, List.getElem?_range hi]
    simp only [Option.map_some']
    rw [List.getElem?_eq_none hlen]
  · intro s hs
    refine ⟨?_, joinWithSpace_splitOnSpace s, splitOnSpace_no_space s⟩
    simp [seedWords, hs]

end AccountUtils
